import Mathlib

/-!
Verification of the anatomy-viewer core (`src/viewer.js`): key normalization,
group index construction, selection state, material state machine, and the
token-based load-cancellation protocol.

Shallow embedding conventions:
* JS strings are Lean `String`/`List Char` (UTF-16 subtleties outside the
  Basic Multilingual Plane are out of scope; all program data is ASCII).
* `String.prototype.toLowerCase` is modelled as ASCII per-character lowering
  (`jsToLowerChar`); for the characters the slug pipeline keeps (a-z, 0-9, _)
  this agrees with JS.
* JS `Set`/`Map` become `Finset String` / association lists (`List`), keeping
  the source's insertion-order update discipline where it is observable.
* JS numbers that are only ever copied (never computed with) are modelled as
  exact rationals.
-/

namespace Viewer

/-! # Definitions: the embedding of src/viewer.js and src/unnamed/part_000 -/
/-! ## Character classes used by the regexes in `normalizeLabel`/`slugify` -/
/-- Code points matched by JavaScript `\s` and removed by `String.prototype.trim`:
tab, LF, VT, FF, CR, space, NBSP, Ogham space, the U+2000 block, line/paragraph
separators, narrow NBSP, math space, ideographic space, BOM. -/
def isJsWs (c : Char) : Bool :=
  let n := c.toNat
  n = 0x9 ∨ n = 0xA ∨ n = 0xB ∨ n = 0xC ∨ n = 0xD ∨ n = 0x20 ∨ n = 0xA0 ∨
  n = 0x1680 ∨ (0x2000 ≤ n ∧ n ≤ 0x200A) ∨ n = 0x2028 ∨ n = 0x2029 ∨
  n = 0x202F ∨ n = 0x205F ∨ n = 0x3000 ∨ n = 0xFEFF

/-- Characters matched by the regex class `[a-z0-9]`. -/
def isLowerAlnum (c : Char) : Bool :=
  (97 ≤ c.toNat ∧ c.toNat ≤ 122) ∨ (48 ≤ c.toNat ∧ c.toNat ≤ 57)

/-- Characters matched by an (un-flagged) JavaScript regex `.`: anything but a
line terminator. -/
def isRegexDot (c : Char) : Bool :=
  c.toNat ≠ 0xA ∧ c.toNat ≠ 0xD ∧ c.toNat ≠ 0x2028 ∧ c.toNat ≠ 0x2029

/-- ASCII model of `String.prototype.toLowerCase` on one character. -/
def jsToLowerChar (c : Char) : Char :=
  if 65 ≤ c.toNat ∧ c.toNat ≤ 90 then Char.ofNat (c.toNat + 32) else c

/-- JS `String.prototype.trim` on a character list. -/
def jsTrimList (l : List Char) : List Char :=
  ((l.dropWhile isJsWs).reverse.dropWhile isJsWs).reverse

/-- JS `String.prototype.trim`. -/
def jsTrimStr (s : String) : String :=
  String.mk (jsTrimList s.toList)

/-- `s.replace(/\u0000/g, '')`. -/
def removeNulls (l : List Char) : List Char :=
  l.filter (fun c => c.toNat ≠ 0)

/-- Case-insensitive (ASCII) test that `l` ends with the lowercase word `suffix`,
as the regex `/(...)$/i` does. -/
def endsWithCI (suffix : List Char) (l : List Char) : Bool :=
  decide (suffix.length ≤ l.length) &&
    decide ((l.drop (l.length - suffix.length)).map jsToLowerChar = suffix)

/-- `s.replace(/(Model|Geometry)$/i, '')`: strip one trailing exporter suffix. -/
def stripExporter (l : List Char) : List Char :=
  if endsWithCI ("model".toList) l then l.take (l.length - 5)
  else if endsWithCI ("geometry".toList) l then l.take (l.length - 8)
  else l

/-- `s.match(/^(.*)\.([lrj])$/i)` followed by `s = m[1].trim()`: strip one
trailing `.l` / `.r` / `.j` side suffix (case-insensitive).  The `.*` group
must not span a line terminator, hence the `isRegexDot` condition. -/
def stripSideSuffix (l : List Char) : List Char :=
  match l.reverse with
  | c :: d :: rest =>
    if d.toNat = 46 ∧
        (c.toNat = 108 ∨ c.toNat = 114 ∨ c.toNat = 106 ∨
         c.toNat = 76 ∨ c.toNat = 82 ∨ c.toNat = 74) ∧
        rest.all isRegexDot
    then jsTrimList rest.reverse else l
  | _ => l

/-- Worker for `collapseWs`: the flag records whether we are inside a
whitespace run whose replacement space was already emitted. -/
def collapseWsAux : Bool → List Char → List Char
  | _, [] => []
  | inRun, c :: cs =>
    if isJsWs c then
      if inRun then collapseWsAux true cs else ' ' :: collapseWsAux true cs
    else c :: collapseWsAux false cs

/-- `s.replace(/\s+/g, ' ')`: collapse every maximal whitespace run to one space. -/
def collapseWs (l : List Char) : List Char :=
  collapseWsAux false l

/-- `normalizeLabel` from `src/viewer.js` (lines 48-63): drop NULs, trim, strip a
trailing exporter suffix, strip a trailing side suffix, collapse whitespace. -/
def normalizeLabel (raw : String) : String :=
  let s := jsTrimList (removeNulls raw.toList)
  if s = [] then "" else
  let s := jsTrimList (stripExporter s)
  let s := stripSideSuffix s
  let s := jsTrimList (collapseWs s)
  String.mk s

/-- Worker for `collapseNonAlnum`: the flag records whether we are inside a
non-alphanumeric run whose replacement underscore was already emitted. -/
def collapseNonAlnumAux : Bool → List Char → List Char
  | _, [] => []
  | inRun, c :: cs =>
    if isLowerAlnum c then c :: collapseNonAlnumAux false cs
    else
      if inRun then collapseNonAlnumAux true cs
      else '_' :: collapseNonAlnumAux true cs

/-- `s.replace(/[^a-z0-9]+/g, '_')`: collapse every maximal run of characters
outside `[a-z0-9]` to a single underscore. -/
def collapseNonAlnum (l : List Char) : List Char :=
  collapseNonAlnumAux false l

/-- `s.replace(/^_+|_+$/g, '')`: drop leading and trailing underscore runs. -/
def trimUnderscores (l : List Char) : List Char :=
  ((l.dropWhile (fun c => c = '_')).reverse.dropWhile (fun c => c = '_')).reverse

/-- `slugify` from `src/viewer.js` (lines 65-68). -/
def slugify (raw : String) : String :=
  let s := (normalizeLabel raw).toList.map jsToLowerChar
  String.mk (trimUnderscores (collapseNonAlnum s))

/-- `partKeyFromName` from `src/viewer.js` (line 70). -/
def partKeyFromName (rawName : String) : String := slugify rawName

/-! ## Shape of slug output (towards claim C4) -/
/-- The relation "not two adjacent underscores", an invariant of slug output. -/
def NoAdjUnderscore (a b : Char) : Prop := ¬(a = '_' ∧ b = '_')

/-! ## Group index and selection state (src/viewer.js lines 80-190) -/
/-- One entry of the group index `groupByKey`:
`{ key, name, meshKeys:Set<string> }`. -/
structure Group where
  key : String
  name : String
  meshKeys : Finset String
deriving DecidableEq

/-- One metadata entry `{ name?, variants? }`.  `variants` is the list of
`(tag, raw-name list)` pairs of the JSON object (non-array variant values,
which the source skips, are not represented). -/
structure MetaEntry where
  name : Option String
  variants : List (String × List String)
deriving DecidableEq

/-- A metadata file: the `Object.entries` of the groups JSON, in order. -/
abbrev Metadata := List (String × MetaEntry)

/-- The display name chosen in `buildGroupIndex`: the trimmed `name` field when
it is a non-empty string, else the raw key. -/
def displayNameOf (k : String) (e : MetaEntry) : String :=
  match e.name with
  | some n => if jsTrimStr n ≠ "" then jsTrimStr n else k
  | none => k

/-- `const mk = slugify(raw); if (mk) meshKeys.add(mk);` -/
def addSlugKey (acc : Finset String) (raw : String) : Finset String :=
  let mk := slugify raw
  if mk ≠ "" then insert mk acc else acc

/-- The member mesh-key set collected for one metadata entry: the slugs of all
raw names across all variant tags, plus the group key itself. -/
def entryMeshKeys (e : MetaEntry) (groupKey : String) : Finset String :=
  insert groupKey (e.variants.foldl (fun acc p => p.2.foldl addSlugKey acc) ∅)

/-- The canonical key an entry derives: the slug of its display name. -/
def entryGroupKey (ke : String × MetaEntry) : String :=
  slugify (displayNameOf ke.1 ke.2)

/-- The fresh group appended for an entry whose key is new. -/
def newGroup (ke : String × MetaEntry) : Group :=
  { key := entryGroupKey ke, name := displayNameOf ke.1 ke.2,
    meshKeys := entryMeshKeys ke.2 (entryGroupKey ke) }

/-- The loop body of `buildGroupIndex`: skip empty keys; union member sets into
an existing group with the same key; otherwise append a new group. -/
def addGroupEntry (idx : List Group) (ke : String × MetaEntry) : List Group :=
  if entryGroupKey ke = "" then idx
  else if idx.any (fun g => g.key = entryGroupKey ke) then
    idx.map (fun g =>
      if g.key = entryGroupKey ke then
        { g with meshKeys := g.meshKeys ∪ entryMeshKeys ke.2 (entryGroupKey ke) }
      else g)
  else
    idx ++ [newGroup ke]

/-- `buildGroupIndex` from `src/viewer.js` (lines 80-115), as a fold over the
metadata entries starting from the cleared map. -/
def buildGroupIndex (md : Metadata) : List Group :=
  md.foldl addGroupEntry []

/-- `groupByKey.get(gk)`. -/
def findGroup (idx : List Group) (gk : String) : Option Group :=
  idx.find? (fun g => g.key = gk)

/-- The member set of the group stored under `gk` (empty if no such group). -/
def groupMembers (idx : List Group) (gk : String) : Finset String :=
  match findGroup idx gk with
  | some g => g.meshKeys
  | none => ∅

/-- `computeSelectedMeshKeys` from `src/viewer.js` (lines 178-190). -/
def computeSelectedMeshKeys (selectedGroupKeys : Finset String)
    (idx : List Group) : Finset String :=
  selectedGroupKeys.biUnion (fun gk =>
    match findGroup idx gk with
    | some g => if g.meshKeys = ∅ then {gk} else g.meshKeys
    | none => {gk})

/-- `toggleGroup` from `src/viewer.js` (lines 163-170), restricted to its
effect on the selection set (the UI refresh it triggers has no state). -/
def toggleGroup (selectedGroupKeys : Finset String) (key : String) :
    Finset String :=
  if key = "" then selectedGroupKeys
  else if key ∈ selectedGroupKeys then selectedGroupKeys.erase key
  else insert key selectedGroupKeys

/-! ## Claims C5 and C6: group-index construction and selection expansion -/
/-- The per-group invariant of the built index: non-empty key, key is the slug
of the display name, and the key is a member of its own member set. -/
def GroupWF (g : Group) : Prop :=
  g.key ≠ "" ∧ g.key = slugify g.name ∧ g.key ∈ g.meshKeys

/-- Two metadata entries that derive the same group key `biceps`. -/
def mdMergeEx : Metadata :=
  [("Biceps", ⟨none, [("L", ["x1.l"])]⟩),
   ("biceps?", ⟨some "Biceps", [("R", ["x2.r"])]⟩)]

/-- Metadata producing groups `m1 ↦ {m2, m1}` and `m3 ↦ {m2, m3}`. -/
def mdExpandEx : Metadata :=
  [("m1", ⟨none, [("G", ["m2"])]⟩),
   ("m3", ⟨none, [("G", ["m2"])]⟩)]

/-! ## Materials and the mesh state machine (src/viewer.js lines 192-285) -/
/-- The three visual states passed to `setMeshState`:
`'base'`, `'dim'`, `'sel'`. -/
inductive MState
  | base
  | dim
  | sel
deriving DecidableEq, Repr

/-- A THREE.js material, restricted to the properties the state machine reads
or writes.  `none` models an absent property (`m.color` falsy, `typeof
m.opacity !== 'number'`, `'depthWrite' in m` false).  Colors are hex values;
opacity is an exact rational (the code only copies it, never computes). -/
structure Material where
  color : Option Nat
  emissive : Option Nat
  opacity : Option ℚ
  transparent : Bool
  depthWrite : Option Bool
  depthTest : Option Bool
  needsUpdate : Bool
deriving DecidableEq, Repr

/-- `snapshotMaterial`'s result record (src/viewer.js lines 192-203). -/
structure MatSnapshot where
  hasColor : Bool
  color : Option Nat
  hasEmissive : Bool
  emissive : Option Nat
  opacity : ℚ
  transparent : Bool
  depthWrite : Bool
  depthTest : Bool
deriving DecidableEq, Repr

/-- `snapshotMaterial` from `src/viewer.js` (lines 192-203). -/
def snapshotMaterial (m : Material) : MatSnapshot :=
  { hasColor := m.color.isSome
    color := m.color
    hasEmissive := m.emissive.isSome
    emissive := m.emissive
    opacity := m.opacity.getD 1
    transparent := m.transparent
    depthWrite := m.depthWrite.getD true
    depthTest := m.depthTest.getD true }

/-- `new THREE.MeshStandardMaterial({ color: 0x888888 })`: gray, black
emissive, opaque, depth read/write on. -/
def defaultStandardMaterial : Material :=
  { color := some 0x888888
    emissive := some 0x000000
    opacity := some 1
    transparent := false
    depthWrite := some true
    depthTest := some true
    needsUpdate := false }

/-- The per-material body of `setMeshState` (src/viewer.js lines 224-256):
one state applied to one material with its snapshot `o = base[i] || null`. -/
def applyMatState (state : MState) (o : Option MatSnapshot) (m : Material) :
    Material :=
  match state with
  | MState.base =>
    match o with
    | some o =>
      { m with
        color := if m.color.isSome ∧ o.color.isSome then o.color else m.color
        emissive :=
          if m.emissive.isSome ∧ o.emissive.isSome then o.emissive else m.emissive
        opacity := some o.opacity
        transparent := o.transparent
        depthWrite := m.depthWrite.map (fun _ => o.depthWrite)
        depthTest := m.depthTest.map (fun _ => o.depthTest)
        needsUpdate := true }
    | none => { m with needsUpdate := true }
  | MState.dim =>
    { m with
      color := m.color.map (fun _ => 0x444444)
      emissive := m.emissive.map (fun _ => 0x000000)
      transparent := true
      opacity := some (mkRat 7 100)
      depthWrite := m.depthWrite.map (fun _ => false)
      depthTest := m.depthTest.map (fun _ => true)
      needsUpdate := true }
  | MState.sel =>
    { m with
      color :=
        match o with
        | some o => if m.color.isSome ∧ o.color.isSome then o.color else m.color
        | none => m.color
      emissive := m.emissive.map (fun _ => 0xff2222)
      transparent := false
      opacity := some 1
      depthWrite := m.depthWrite.map (fun _ => true)
      depthTest := m.depthTest.map (fun _ => true)
      needsUpdate := true }

/-- A loaded mesh: its raw name, derived part key, material slots (a `none`
slot is a null material the loop skips), the `userData._matBase` snapshots,
and the render order. -/
structure Mesh where
  name : String
  partKey : String
  material : List (Option Material)
  matBase : List MatSnapshot
  renderOrder : Nat
deriving DecidableEq, Repr

/-- The material loop of `setMeshState`: position `i` is paired with snapshot
`base[i] || null`; null materials are skipped. -/
def updateMats (state : MState) : List (Option Material) → List MatSnapshot →
    List (Option Material)
  | [], _ => []
  | om :: ms, base =>
    om.map (applyMatState state base.head?) :: updateMats state ms base.tail

/-- `setMeshState` from `src/viewer.js` (lines 220-260). -/
def setMeshState (mesh : Mesh) (state : MState) : Mesh :=
  { mesh with
    material := updateMats state mesh.material mesh.matBase
    renderOrder := if state = MState.sel then 2 else 0 }

/-- `ensureUniqueMaterials` from `src/viewer.js` (lines 205-218): clone each
material (null ones become a fresh standard material), snapshot the clones
into `userData._matBase`, and install the clones. -/
def ensureUniqueMaterials (mesh : Mesh) : Mesh :=
  { mesh with
    matBase :=
      (mesh.material.map (fun om => om.getD defaultStandardMaterial)).map
        snapshotMaterial
    material :=
      (mesh.material.map (fun om => om.getD defaultStandardMaterial)).map some }

/-- The state `applySelectionToMeshes` picks for a mesh, as a function of the
expanded mesh-key set and the mesh's part key only. -/
def chooseState (selectedMeshKeys : Finset String) (mk : String) : MState :=
  if selectedMeshKeys = ∅ then MState.base
  else if mk ≠ "" ∧ mk ∈ selectedMeshKeys then MState.sel
  else MState.dim

/-- `applySelectionToMeshes` from `src/viewer.js` (lines 262-285), restricted
to its effect on the meshes (the status line is DOM-only).  The expanded set
is computed once in the source; it is pure, so inlining it is equivalent. -/
def applySelectionToMeshes (selectedGroupKeys : Finset String)
    (idx : List Group) (meshes : List Mesh) : List Mesh :=
  meshes.map (fun mesh =>
    if computeSelectedMeshKeys selectedGroupKeys idx = ∅ then
      setMeshState mesh MState.base
    else if mesh.partKey ≠ "" ∧
        mesh.partKey ∈ computeSelectedMeshKeys selectedGroupKeys idx then
      setMeshState mesh MState.sel
    else setMeshState mesh MState.dim)

/-! ## Claim C3: base state restores the load-time snapshot exactly -/
/-- Two materials with the same presence pattern of optional properties. -/
def presLike (m m0 : Material) : Prop :=
  m.color.isSome = m0.color.isSome ∧
    m.emissive.isSome = m0.emissive.isSome ∧
    m.depthWrite.isSome = m0.depthWrite.isSome ∧
    m.depthTest.isSome = m0.depthTest.isSome

/-- A concrete source material and mesh for the C3 witness. -/
def matEx : Material :=
  { color := some 0xAA0000, emissive := some 0x101010,
    opacity := some (mkRat 9 10), transparent := true,
    depthWrite := some true, depthTest := some true, needsUpdate := false }

def meshEx : Mesh :=
  { name := "VastusLateralis.l", partKey := "vastus_lateralis",
    material := [some matEx], matBase := [], renderOrder := 0 }

def oEx : MatSnapshot := snapshotMaterial matEx

def mRestoredEx : Material := { matEx with needsUpdate := true }

/-! ## Claim C10: per-mesh material isolation (heap model)

Mutating a THREE material is an effect on a shared object.  To state
isolation we model the material store explicitly: a heap (list index =
object identity) and meshes holding references into it, so that two meshes
of the source asset can reference the same material object. -/
/-- A mesh whose material slots are references into a shared material heap
(`none` models a null material slot). -/
structure HeapMesh where
  name : String
  partKey : String
  matRefs : List (Option Nat)
  matBase : List MatSnapshot
  renderOrder : Nat
deriving DecidableEq, Repr

/-- The identities of the materials a mesh references. -/
def refIds (mesh : HeapMesh) : List Nat :=
  mesh.matRefs.filterMap id

/-- `m && m.clone ? m.clone() : null` followed by null replacement: the value
cloned out of slot `r` (a fresh standard material for null slots). -/
def cloneSlot (heap : List Material) (r : Option Nat) : Material :=
  match r.bind (fun j => heap[j]?) with
  | some mat => mat
  | none => defaultStandardMaterial

/-- Heap version of `ensureUniqueMaterials` (src/viewer.js lines 205-218):
allocate the clones as fresh heap objects, snapshot them, and point the mesh
at the fresh references. -/
def ensureUniqueMaterialsH (heap : List Material) (mesh : HeapMesh) :
    List Material × HeapMesh :=
  (heap ++ mesh.matRefs.map (cloneSlot heap),
   { mesh with
     matRefs := (List.range mesh.matRefs.length).map
       (fun i => some (heap.length + i))
     matBase := (mesh.matRefs.map (cloneSlot heap)).map snapshotMaterial })

/-- One iteration of `setMeshState`'s material loop on the heap: skip null
slots, otherwise mutate the referenced material in place. -/
def heapWriteStep (state : MState) (base : List MatSnapshot)
    (h : List Material) (p : Nat × Option Nat) : List Material :=
  match p.2 with
  | none => h
  | some j =>
    match h[j]? with
    | none => h
    | some mat => h.set j (applyMatState state base[p.1]? mat)

/-- Heap version of `setMeshState` (src/viewer.js lines 220-260). -/
def setMeshStateH (heap : List Material) (mesh : HeapMesh) (state : MState) :
    List Material × HeapMesh :=
  ((mesh.matRefs.enum).foldl (heapWriteStep state mesh.matBase) heap,
   { mesh with renderOrder := if state = MState.sel then 2 else 0 })

/-- The mesh-index rebuild of `loadModel` (src/viewer.js lines 360-376)
restricted to what C10 needs: every traversed mesh is passed through
`ensureUniqueMaterials` in order. -/
def buildMeshIndexH : List Material → List HeapMesh →
    List Material × List HeapMesh
  | heap, [] => (heap, [])
  | heap, mesh :: rest =>
    ((buildMeshIndexH (ensureUniqueMaterialsH heap mesh).1 rest).1,
     (ensureUniqueMaterialsH heap mesh).2 ::
       (buildMeshIndexH (ensureUniqueMaterialsH heap mesh).1 rest).2)

/-- Concrete inputs for the C10 witness: two meshes sharing material `0`. -/
def heapEx : List Material := [matEx]

def hMeshA : HeapMesh :=
  { name := "A.l", partKey := "a", matRefs := [some 0], matBase := [],
    renderOrder := 0 }

def hMeshB : HeapMesh :=
  { name := "B.l", partKey := "b", matRefs := [some 0], matBase := [],
    renderOrder := 0 }

def ensAEx : HeapMesh :=
  { name := "A.l", partKey := "a", matRefs := [some 1],
    matBase := [snapshotMaterial matEx], renderOrder := 0 }

def ensBEx : HeapMesh :=
  { name := "B.l", partKey := "b", matRefs := [some 2],
    matBase := [snapshotMaterial matEx], renderOrder := 0 }

/-! ## Load coordinator (src/viewer.js lines 323-404)

`loadSystem` is asynchronous.  We model it operationally: the synchronous
prefix (`loadSystemStart`, up to `const token = ++loadToken`) is one step;
the completion of the metadata fetch (`resumeGroups`, the part of
`loadGroups` after its `await`) and the completion of the model load
(`resumeModel`, the part of `loadModel` after its `await`) are explicit
events applied to the shared state in whatever order the I/O resolves (within
one call, the code awaits groups before issuing the model load, so its group
event precedes its model event).  I/O is issued only after a passing guard;
the guard tests the truthiness of a plain-object property access, so besides
the catalog keys it also admits the keys `Object.prototype` provides (see
`systemsIndex`).  Released resources (`disposeObject`) are tracked by the
ghost field `disposed` holding the ids of disposed model roots. -/
/-- One entry of the static `SYSTEMS` catalog. -/
structure SystemDef where
  label : String
  fbx : String
  groups : String
deriving DecidableEq, Repr

/-- The static system catalog of `src/viewer.js` (lines 5-11). -/
def SYSTEMS : List (String × SystemDef) :=
  [("bones", ⟨"Bones", "./assets/bones.fbx", "./meta/bones_groups.json"⟩),
   ("muscles", ⟨"Muscles", "./assets/muscles.fbx", "./meta/muscles_groups.json"⟩),
   ("nerves", ⟨"Nerves", "./assets/nerves.fbx", "./meta/nerves_groups.json"⟩),
   ("vessels", ⟨"Vessels", "./assets/vessels.fbx", "./meta/vessels_groups.json"⟩),
   ("organs", ⟨"Organs", "./assets/organs.fbx", "./meta/organs_groups.json"⟩)]

/-- The string-keyed properties every plain object literal inherits from
`Object.prototype`.  All of them are truthy: the methods are function
objects, and `__proto__` reads back the prototype object itself. -/
def objectPrototypeKeys : List String :=
  ["constructor", "hasOwnProperty", "isPrototypeOf", "propertyIsEnumerable",
   "toLocaleString", "toString", "valueOf", "__defineGetter__",
   "__defineSetter__", "__lookupGetter__", "__lookupSetter__", "__proto__"]

/-- What the property access `SYSTEMS[systemKey]` can yield besides
`undefined`: an own catalog entry, or a member inherited from
`Object.prototype` (truthy, but with no usable `label`/`fbx`/`groups`
fields). -/
inductive SystemsProp
  | own (sys : SystemDef)
  | inherited
deriving DecidableEq, Repr

/-- The JS property access `SYSTEMS[systemKey]` of the guard
`if (!SYSTEMS[systemKey])` (src/viewer.js line 387), `none` for `undefined`.
`SYSTEMS` is a plain object literal, so the access consults the prototype
chain: a key of `Object.prototype` (for example `"toString"`) yields the
inherited member, not `undefined`. -/
def systemsIndex (systemKey : String) : Option SystemsProp :=
  match SYSTEMS.find? (fun p => p.1 = systemKey) with
  | some p => some (SystemsProp.own p.2)
  | none =>
    if objectPrototypeKeys.contains systemKey then some SystemsProp.inherited
    else none

/-- A loaded FBX root: an identity (for resource accounting) and its mesh
children. -/
structure RawModel where
  id : Nat
  meshes : List Mesh
deriving DecidableEq, Repr

/-- The module-level mutable state of `src/viewer.js`: active system,
selection, load token, group index, mesh index, current model root, the ids
of roots in the scene, and the ghost set of disposed root ids. -/
structure ViewerState where
  activeSystem : String
  selectedGroupKeys : Finset String
  loadToken : Nat
  groupByKey : List Group
  meshList : List Mesh
  meshByKey : List (String × List Mesh)
  modelRoot : Option RawModel
  scene : List Nat
  disposed : Finset Nat
deriving DecidableEq

/-- The synchronous prefix of `loadSystem` (src/viewer.js lines 386-400):
the guard `!SYSTEMS[systemKey]` rejects exactly the keys whose property
access is `undefined` — keys inherited from `Object.prototype` pass it — and
a passing call sets the active system, clears the selection, and captures a
fresh token before any I/O is awaited. -/
def loadSystemStart (st : ViewerState) (systemKey : String) :
    ViewerState × Except String Nat :=
  if (systemsIndex systemKey).isNone then
    (st, Except.error ("Unknown system: " ++ systemKey))
  else
    ({ st with
        activeSystem := systemKey
        selectedGroupKeys := ∅
        loadToken := st.loadToken + 1 },
      Except.ok (st.loadToken + 1))

/-- The completion of a metadata fetch (src/viewer.js lines 328-334): a stale
token abandons the result, otherwise the group index is rebuilt (the chip
re-render is DOM-only). -/
def resumeGroups (st : ViewerState) (token : Nat) (groupsJson : Metadata) :
    ViewerState :=
  if token ≠ st.loadToken then st
  else { st with groupByKey := buildGroupIndex groupsJson }

/-- One traversed mesh of a loaded model (src/viewer.js lines 364-376): derive
the part key from the name, clone and snapshot its materials. -/
def processMesh (m : Mesh) : Mesh :=
  ensureUniqueMaterials { m with partKey := partKeyFromName m.name }

/-- The `meshByKey` map: keys in discovery order, each holding its meshes in
discovery order. -/
def buildMeshByKey (meshes : List Mesh) : List (String × List Mesh) :=
  meshes.foldl (fun acc mesh =>
    if acc.any (fun p => p.1 = mesh.partKey) then
      acc.map (fun p =>
        if p.1 = mesh.partKey then (p.1, p.2 ++ [mesh]) else p)
    else acc ++ [(mesh.partKey, [mesh])]) []

/-- The completion of a model load (src/viewer.js lines 346-384): a stale
token disposes the just-loaded object and stops; otherwise the previous root
is removed from the scene and disposed, the new root installed, the mesh
index rebuilt, and the selection repainted.  (The source paints `meshList`
in place after indexing; the painted meshes are stored in both indexes.) -/
def resumeModel (st : ViewerState) (token : Nat) (obj : RawModel) :
    ViewerState :=
  if token ≠ st.loadToken then
    { st with disposed := insert obj.id st.disposed }
  else
    { st with
      modelRoot := some obj
      scene :=
        (match st.modelRoot with
         | some old => st.scene.erase old.id
         | none => st.scene) ++ [obj.id]
      disposed :=
        match st.modelRoot with
        | some old => insert old.id st.disposed
        | none => st.disposed
      meshList := applySelectionToMeshes st.selectedGroupKeys st.groupByKey
        (obj.meshes.map processMesh)
      meshByKey := buildMeshByKey (applySelectionToMeshes st.selectedGroupKeys
        st.groupByKey (obj.meshes.map processMesh)) }

/-- `Interleave l r s`: `s` is an order-preserving merge of `l` and `r` — the
possible completion orders of two overlapping asynchronous call chains. -/
inductive Interleave {α : Type} : List α → List α → List α → Prop
  | nil_left (l : List α) : Interleave [] l l
  | nil_right (l : List α) : Interleave l [] l
  | cons_left {x : α} {xs ys zs : List α} :
      Interleave xs ys zs → Interleave (x :: xs) ys (x :: zs)
  | cons_right {y : α} {xs ys zs : List α} :
      Interleave xs ys zs → Interleave xs (y :: ys) (y :: zs)

/-- An arbitrary initial state for witnesses. -/
def stEx : ViewerState :=
  { activeSystem := "muscles", selectedGroupKeys := ∅, loadToken := 0,
    groupByKey := [], meshList := [], meshByKey := [], modelRoot := none,
    scene := [], disposed := ∅ }

/-- The state after `switchSystem("bones")` immediately followed by
`switchSystem("muscles")`, before any asynchronous load resolves. -/
def switchScenarioStart (st0 : ViewerState) : ViewerState :=
  (loadSystemStart (loadSystemStart st0 "bones").1 "muscles").1

/-- The token captured by the first (superseded) call. -/
def bonesToken (st0 : ViewerState) : Nat :=
  (loadSystemStart st0 "bones").1.loadToken

/-- Concrete models for the C1 witness. -/
def bModelEx : RawModel := ⟨1, []⟩

def mModelEx : RawModel := ⟨2, []⟩

/-! ## Claim C8: filtering the group chips (src/viewer.js lines 117-161,
with the sibling variant of src/unnamed/part_000 lines 289-363) -/
/-- `p <+: l` as a boolean: JS `String.prototype.startsWith`. -/
def startsWithList : List Char → List Char → Bool
  | [], _ => true
  | _ :: _, [] => false
  | p :: ps, c :: cs => p = c && startsWithList ps cs

/-- `l` contains `pat` as a contiguous substring: JS `String.prototype.includes`. -/
def includesList (pat : List Char) : List Char → Bool
  | [] => pat.isEmpty
  | c :: cs => startsWithList pat (c :: cs) || includesList pat cs

/-- `s.includes(q)` on strings. -/
def strIncludes (s q : String) : Bool := includesList q.toList s.toList

/-- A display name lowered for case-insensitive comparison, modelling
`localeCompare(..., { sensitivity: 'base' })` on ASCII names. -/
def lowerName (g : Group) : List Char := g.name.toList.map jsToLowerChar

/-- The chip order of `renderChips`: case-insensitive lexicographic by name. -/
def chipLE (a b : Group) : Prop := lowerName a ≤ lowerName b

instance decChipLE : DecidableRel chipLE := fun a b =>
  inferInstanceAs (Decidable (lowerName a ≤ lowerName b))

instance : IsTotal Group chipLE := ⟨fun a b => le_total (lowerName a) (lowerName b)⟩

instance : IsTrans Group chipLE := ⟨fun _ _ _ hab hbc => le_trans hab hbc⟩

/-- `renderChips` chip order (src/viewer.js lines 121-123): the groups sorted
by display name with a stable sort, modelling `Array.prototype.sort`. -/
def renderChipsOrder (idx : List Group) : List Group :=
  idx.insertionSort chipLE

/-- `filterGroups` of the core API: the chips left visible by
`renderChips` + `applyFilter text` (src/viewer.js lines 117-161); a chip is
visible iff the query slug is empty or a substring of the chip's
`data-search` slug. -/
def filterGroups (idx : List Group) (text : String) : List Group :=
  (renderChipsOrder idx).filter (fun g =>
    if slugify text = "" then true
    else strIncludes (slugify g.name) (slugify text))

/-- Modelled from the spec's words, for comparison with the implementation:
the claim's `filterGroups` — normalized-substring match, ordered by
display-name length ascending then lexicographically, capped at a fixed
maximum count (140, the cap of the sibling implementation). -/
def filterGroupsSpec (idx : List Group) (text : String) : List Group :=
  ((idx.filter (fun g => strIncludes (slugify g.name) (slugify text))).insertionSort
    (fun a b => a.name.length < b.name.length ∨
      (a.name.length = b.name.length ∧ a.name.toList ≤ b.name.toList))).take 140

/-- An item of the part_000 search list. -/
structure SearchItem where
  key : String
  name : String
deriving DecidableEq, Repr

/-- ASCII model of `String.prototype.toLowerCase`. -/
def jsToLowerStr (s : String) : String := String.mk (s.toList.map jsToLowerChar)

/-- `renderChipsFromSearch` from `src/unnamed/part_000` (lines 289-311),
restricted to the list of chips it renders: lowercased-substring match
against name or raw key, sort by name length then name, cap at 140. -/
def renderChipsFromSearch (items : List SearchItem) (queryText : String) :
    List SearchItem :=
  ((if jsToLowerStr (jsTrimStr queryText) = "" then items
    else items.filter (fun it =>
      strIncludes (jsToLowerStr it.name) (jsToLowerStr (jsTrimStr queryText)) ||
        strIncludes it.key (jsToLowerStr (jsTrimStr queryText)))).insertionSort
    (fun a b => a.name.length < b.name.length ∨
      (a.name.length = b.name.length ∧ a.name.toList ≤ b.name.toList))).take 140

/-- Concrete index refuting the claimed ordering: `filterGroups` shows
`"a c"` before `"bb"` (alphabetical), while the claim orders `"bb"` first
(shorter name). -/
def idxC8 : List Group :=
  [⟨"a_c", "a c", {"a_c"}⟩, ⟨"bb", "bb", {"bb"}⟩]

/-! # Theorems -/

/-! # Theorems -/
example : slugify "Quadriceps.L" = "quadriceps" := by decide

example : slugify "quadriceps" = "quadriceps" := by decide

example : slugify "BicepsBrachiiModel" = "bicepsbrachii" := by decide

example : slugify "model!" = "model" := by decide

example : slugify "model" = "" := by decide

example : slugify "  Vastus  Lateralis.r " = "vastus_lateralis" := by decide

lemma isLowerAlnum_iff {c : Char} :
    isLowerAlnum c = true ↔
      ((97 ≤ c.toNat ∧ c.toNat ≤ 122) ∨ (48 ≤ c.toNat ∧ c.toNat ≤ 57)) := by
  simp [isLowerAlnum]

lemma ne_underscore_of_isLowerAlnum {c : Char} (h : isLowerAlnum c = true) :
    c ≠ '_' := by
  rintro rfl
  exact absurd h (by decide)

lemma slugChar_ws {c : Char} (h : isLowerAlnum c = true ∨ c = '_') :
    isJsWs c = false := by
  rcases h with h | rfl
  · rw [isLowerAlnum_iff] at h
    simp only [isJsWs, decide_eq_false_iff_not]
    omega
  · decide

lemma slugChar_toLower {c : Char} (h : isLowerAlnum c = true ∨ c = '_') :
    jsToLowerChar c = c := by
  rcases h with h | rfl
  · rw [isLowerAlnum_iff] at h
    simp only [jsToLowerChar]
    rw [if_neg (by omega)]
  · decide

lemma slugChar_toNat_ne {c : Char} (h : isLowerAlnum c = true ∨ c = '_') :
    c.toNat ≠ 0 ∧ c.toNat ≠ 46 := by
  rcases h with h | rfl
  · rw [isLowerAlnum_iff] at h
    omega
  · decide

lemma mem_collapseNonAlnumAux (l : List Char) :
    ∀ (b : Bool), ∀ c ∈ collapseNonAlnumAux b l, isLowerAlnum c = true ∨ c = '_' := by
  induction l with
  | nil => intro b c hc; simp [collapseNonAlnumAux] at hc
  | cons d ds ih =>
    intro b c hc
    cases hd : isLowerAlnum d with
    | true =>
      rw [collapseNonAlnumAux, if_pos hd] at hc
      rcases List.mem_cons.mp hc with rfl | hc
      · exact Or.inl hd
      · exact ih false c hc
    | false =>
      cases b with
      | true =>
        rw [collapseNonAlnumAux, if_neg (by simp [hd]), if_pos rfl] at hc
        exact ih true c hc
      | false =>
        rw [collapseNonAlnumAux, if_neg (by simp [hd]), if_neg (by simp)] at hc
        rcases List.mem_cons.mp hc with rfl | hc
        · exact Or.inr rfl
        · exact ih true c hc

lemma head_collapseNonAlnumAux_true (l : List Char) :
    (collapseNonAlnumAux true l).head? ≠ some '_' := by
  induction l with
  | nil => simp [collapseNonAlnumAux]
  | cons d ds ih =>
    cases hd : isLowerAlnum d with
    | true =>
      rw [collapseNonAlnumAux, if_pos hd]
      simpa using ne_underscore_of_isLowerAlnum hd
    | false =>
      rw [collapseNonAlnumAux, if_neg (by simp [hd]), if_pos rfl]
      exact ih

lemma chain_collapseNonAlnumAux (l : List Char) :
    ∀ b, List.Chain' NoAdjUnderscore (collapseNonAlnumAux b l) := by
  induction l with
  | nil => intro b; simp [collapseNonAlnumAux]
  | cons d ds ih =>
    intro b
    cases hd : isLowerAlnum d with
    | true =>
      rw [collapseNonAlnumAux, if_pos hd, List.chain'_cons']
      exact ⟨fun y _ h => ne_underscore_of_isLowerAlnum hd h.1, ih false⟩
    | false =>
      cases b with
      | true =>
        rw [collapseNonAlnumAux, if_neg (by simp [hd]), if_pos rfl]
        exact ih true
      | false =>
        rw [collapseNonAlnumAux, if_neg (by simp [hd]), if_neg (by simp),
          List.chain'_cons']
        refine ⟨?_, ih true⟩
        intro y hy h
        exact head_collapseNonAlnumAux_true ds (by rw [← h.2]; exact hy)

lemma dropWhile_eq_self_of_forall {p : Char → Bool} {l : List Char}
    (h : ∀ c ∈ l, p c = false) : l.dropWhile p = l := by
  cases l with
  | nil => rfl
  | cons c cs => simp [List.dropWhile_cons, h c (List.mem_cons_self c cs)]

lemma jsTrimList_eq_self {l : List Char} (h : ∀ c ∈ l, isJsWs c = false) :
    jsTrimList l = l := by
  unfold jsTrimList
  rw [dropWhile_eq_self_of_forall h,
    dropWhile_eq_self_of_forall (fun c hc => h c (List.mem_reverse.mp hc)),
    List.reverse_reverse]

lemma head_dropWhile_underscore_ne (l : List Char) :
    (l.dropWhile (fun c => c = '_')).head? ≠ some '_' := by
  induction l with
  | nil => simp
  | cons c cs ih =>
    by_cases hc : c = '_'
    · subst hc
      simpa [List.dropWhile_cons] using ih
    · simp [List.dropWhile_cons, hc]

lemma trimUnderscores_head_ne (m : List Char) :
    (trimUnderscores m).head? ≠ some '_' := by
  unfold trimUnderscores
  rw [List.head?_reverse]
  have hlast : (m.dropWhile (fun c => c = '_')).reverse.getLast? ≠ some '_' := by
    rw [List.getLast?_reverse]
    exact head_dropWhile_underscore_ne m
  cases hB : (m.dropWhile (fun c => c = '_')).reverse.dropWhile (fun c => c = '_') with
  | nil => simp
  | cons c cs =>
    obtain ⟨t, ht⟩ :=
      List.dropWhile_suffix (l := (m.dropWhile (fun c => c = '_')).reverse)
        (fun c => c = '_')
    rw [hB] at ht
    rw [← ht, List.getLast?_append_of_ne_nil _ (by simp)] at hlast
    exact hlast

lemma trimUnderscores_getLast_ne (m : List Char) :
    (trimUnderscores m).getLast? ≠ some '_' := by
  unfold trimUnderscores
  rw [List.getLast?_reverse]
  exact head_dropWhile_underscore_ne _

lemma mem_trimUnderscores {c : Char} {m : List Char} (h : c ∈ trimUnderscores m) :
    c ∈ m := by
  unfold trimUnderscores at h
  rw [List.mem_reverse] at h
  have h1 := (List.dropWhile_suffix _).subset h
  rw [List.mem_reverse] at h1
  exact (List.dropWhile_suffix _).subset h1

lemma chain_noadj_suffix {l m : List Char} (h : l <:+ m)
    (hm : List.Chain' NoAdjUnderscore m) : List.Chain' NoAdjUnderscore l := by
  obtain ⟨t, rfl⟩ := h
  exact (List.chain'_append.mp hm).2.1

lemma chain_noadj_reverse {l : List Char} (h : List.Chain' NoAdjUnderscore l) :
    List.Chain' NoAdjUnderscore l.reverse := by
  rw [List.chain'_reverse]
  exact h.imp (fun a b hab hba => hab ⟨hba.2, hba.1⟩)

lemma chain_trimUnderscores {m : List Char} (h : List.Chain' NoAdjUnderscore m) :
    List.Chain' NoAdjUnderscore (trimUnderscores m) := by
  unfold trimUnderscores
  exact chain_noadj_reverse
    (chain_noadj_suffix (List.dropWhile_suffix _)
      (chain_noadj_reverse (chain_noadj_suffix (List.dropWhile_suffix _) h)))

/-! ## Identity of the pipeline steps on slug-shaped lists -/
lemma removeNulls_eq_self {l : List Char} (h : ∀ c ∈ l, c.toNat ≠ 0) :
    removeNulls l = l := by
  unfold removeNulls
  exact List.filter_eq_self.mpr (fun c hc => by simpa using h c hc)

lemma collapseWsAux_eq_self {l : List Char} (h : ∀ c ∈ l, isJsWs c = false) :
    collapseWsAux false l = l := by
  induction l with
  | nil => rfl
  | cons c cs ih =>
    rw [collapseWsAux, if_neg (by simp [h c (List.mem_cons_self c cs)])]
    rw [ih (fun d hd => h d (List.mem_cons_of_mem c hd))]

lemma collapseWs_eq_self {l : List Char} (h : ∀ c ∈ l, isJsWs c = false) :
    collapseWs l = l :=
  collapseWsAux_eq_self h

lemma map_jsToLowerChar_eq_self {l : List Char}
    (h : ∀ c ∈ l, jsToLowerChar c = c) : l.map jsToLowerChar = l := by
  induction l with
  | nil => rfl
  | cons c cs ih =>
    rw [List.map_cons, h c (List.mem_cons_self c cs),
      ih (fun d hd => h d (List.mem_cons_of_mem c hd))]

lemma stripExporter_eq_self {l : List Char}
    (h1 : endsWithCI ("model".toList) l = false)
    (h2 : endsWithCI ("geometry".toList) l = false) :
    stripExporter l = l := by
  unfold stripExporter
  rw [h1, h2]
  simp

lemma stripSideSuffix_eq_self {l : List Char}
    (h : ∀ c ∈ l, isLowerAlnum c = true ∨ c = '_') :
    stripSideSuffix l = l := by
  cases hrev : l.reverse with
  | nil => unfold stripSideSuffix; rw [hrev]
  | cons c tail =>
    cases tail with
    | nil => unfold stripSideSuffix; rw [hrev]
    | cons d rest =>
      have hd : d ∈ l := by
        rw [← List.mem_reverse, hrev]
        exact List.mem_cons_of_mem c (List.mem_cons_self d rest)
      unfold stripSideSuffix
      rw [hrev]
      show (if d.toNat = 46 ∧
          (c.toNat = 108 ∨ c.toNat = 114 ∨ c.toNat = 106 ∨
           c.toNat = 76 ∨ c.toNat = 82 ∨ c.toNat = 74) ∧
          rest.all isRegexDot
        then jsTrimList rest.reverse else l) = l
      rw [if_neg]
      intro hcond
      exact (slugChar_toNat_ne (h d hd)).2 hcond.1

lemma trimUnderscores_eq_self {l : List Char} (hhead : l.head? ≠ some '_')
    (hlast : l.getLast? ≠ some '_') : trimUnderscores l = l := by
  unfold trimUnderscores
  have h1 : l.dropWhile (fun c => c = '_') = l := by
    cases l with
    | nil => rfl
    | cons c cs =>
      have : ¬(c = '_') := fun hc => hhead (by rw [hc]; rfl)
      simp [List.dropWhile_cons, this]
  rw [h1]
  have h2 : l.reverse.dropWhile (fun c => c = '_') = l.reverse := by
    cases hrev : l.reverse with
    | nil => rfl
    | cons c cs =>
      have hc : ¬(c = '_') := by
        intro hc
        apply hlast
        rw [← List.head?_reverse, hrev, hc]
        rfl
      simp [List.dropWhile_cons, hc]
  rw [h2, List.reverse_reverse]

lemma collapseNonAlnumAux_eq_self (l : List Char)
    (hmem : ∀ c ∈ l, isLowerAlnum c = true ∨ c = '_')
    (hch : List.Chain' NoAdjUnderscore l)
    (hlast : l.getLast? ≠ some '_') :
    collapseNonAlnumAux false l = l ∧
      (l.head? ≠ some '_' → collapseNonAlnumAux true l = l) := by
  induction l with
  | nil => exact ⟨rfl, fun _ => rfl⟩
  | cons d ds ih =>
    cases ds with
    | nil =>
      have hd : isLowerAlnum d = true := by
        rcases hmem d (List.mem_cons_self d []) with h | h
        · exact h
        · exact absurd (show [d].getLast? = some '_' by rw [h]; simp) hlast
      constructor
      · rw [collapseNonAlnumAux, if_pos hd]; rfl
      · intro _
        rw [collapseNonAlnumAux, if_pos hd]; rfl
    | cons e es =>
      have hmem' : ∀ c ∈ e :: es, isLowerAlnum c = true ∨ c = '_' :=
        fun c hc => hmem c (List.mem_cons_of_mem d hc)
      have hch' : List.Chain' NoAdjUnderscore (e :: es) := hch.tail
      have hlast' : (e :: es).getLast? ≠ some '_' := by
        rwa [List.getLast?_cons_cons] at hlast
      obtain ⟨ih1, ih2⟩ := ih hmem' hch' hlast'
      have hde : NoAdjUnderscore d e := (List.chain'_cons.mp hch).1
      constructor
      · cases hd : isLowerAlnum d with
        | true => rw [collapseNonAlnumAux, if_pos hd, ih1]
        | false =>
          have hdu : d = '_' := by
            rcases hmem d (List.mem_cons_self d (e :: es)) with h | h
            · rw [hd] at h; cases h
            · exact h
          have he : (e :: es).head? ≠ some '_' := by
            intro hcon
            exact hde ⟨hdu, by simpa using hcon⟩
          rw [collapseNonAlnumAux, if_neg (by simp [hd]), if_neg (by simp),
            ih2 he, hdu]
      · intro hhead
        have hd : isLowerAlnum d = true := by
          rcases hmem d (List.mem_cons_self d (e :: es)) with h | h
          · exact h
          · exact absurd (by rw [h]; rfl) hhead
        rw [collapseNonAlnumAux, if_pos hd, ih1]

/-! ## Claim C4: idempotence of key normalization -/
lemma string_mk_toList (t : String) : String.mk t.toList = t := rfl

lemma normalizeLabel_eq (raw : String) :
    normalizeLabel raw =
      if jsTrimList (removeNulls raw.toList) = [] then ""
      else String.mk (jsTrimList (collapseWs (stripSideSuffix
        (jsTrimList (stripExporter (jsTrimList (removeNulls raw.toList))))))) := by
  unfold normalizeLabel
  rfl

lemma slugify_toList (s : String) :
    (slugify s).toList =
      trimUnderscores (collapseNonAlnum
        ((normalizeLabel s).toList.map jsToLowerChar)) := rfl

lemma slug_output_mem (s : String) :
    ∀ c ∈ (slugify s).toList, isLowerAlnum c = true ∨ c = '_' := by
  intro c hc
  rw [slugify_toList] at hc
  exact mem_collapseNonAlnumAux _ false c (mem_trimUnderscores hc)

/-- The claim C4 as written fails: `slugify` is not idempotent on `"model!"`,
whose slug `"model"` re-triggers the exporter-suffix strip on a second pass. -/
theorem slugify_not_idempotent_on_model_bang :
    slugify (slugify "model!") ≠ slugify "model!" := by decide

/-- C4 (amended): `slugify` is idempotent on every string whose slug does not
itself end with an exporter suffix `model` / `geometry`; on such strings the
second pass cannot strip anything further and reproduces the slug exactly. -/
theorem slugify_idempotent_of_no_exporter_suffix (s : String)
    (h1 : endsWithCI ("model".toList) (slugify s).toList = false)
    (h2 : endsWithCI ("geometry".toList) (slugify s).toList = false) :
    slugify (slugify s) = slugify s := by
  have hmem := slug_output_mem s
  have hch : List.Chain' NoAdjUnderscore (slugify s).toList := by
    rw [slugify_toList]
    exact chain_trimUnderscores (chain_collapseNonAlnumAux _ false)
  have hhead : (slugify s).toList.head? ≠ some '_' := by
    rw [slugify_toList]; exact trimUnderscores_head_ne _
  have hlast : (slugify s).toList.getLast? ≠ some '_' := by
    rw [slugify_toList]; exact trimUnderscores_getLast_ne _
  have hws : ∀ c ∈ (slugify s).toList, isJsWs c = false :=
    fun c hc => slugChar_ws (hmem c hc)
  have hnn : ∀ c ∈ (slugify s).toList, c.toNat ≠ 0 :=
    fun c hc => (slugChar_toNat_ne (hmem c hc)).1
  by_cases hemp : (slugify s).toList = []
  · have hs : slugify s = "" := by
      rw [← string_mk_toList (slugify s), hemp]
    rw [hs]
    decide
  · have hnorm : normalizeLabel (slugify s) = slugify s := by
      rw [normalizeLabel_eq, removeNulls_eq_self hnn, jsTrimList_eq_self hws,
        if_neg hemp, stripExporter_eq_self h1 h2, jsTrimList_eq_self hws,
        stripSideSuffix_eq_self hmem, collapseWs_eq_self hws,
        jsTrimList_eq_self hws]
      exact string_mk_toList _
    show String.mk (trimUnderscores (collapseNonAlnum
      ((normalizeLabel (slugify s)).toList.map jsToLowerChar))) = slugify s
    rw [hnorm,
      map_jsToLowerChar_eq_self (fun c hc => slugChar_toLower (hmem c hc))]
    show String.mk
      (trimUnderscores (collapseNonAlnumAux false (slugify s).toList)) = _
    rw [(collapseNonAlnumAux_eq_self _ hmem hch hlast).1,
      trimUnderscores_eq_self hhead hlast]
    exact string_mk_toList _

/-- Witness for the amended C4 at the concrete input `"Quadriceps.L"`. -/
theorem slugify_idempotent_of_no_exporter_suffix_witness :
    (endsWithCI ("model".toList) (slugify "Quadriceps.L").toList = false ∧
      endsWithCI ("geometry".toList) (slugify "Quadriceps.L").toList = false) ∧
      slugify (slugify "Quadriceps.L") = slugify "Quadriceps.L" :=
  ⟨⟨by decide, by decide⟩,
    slugify_idempotent_of_no_exporter_suffix "Quadriceps.L" (by decide) (by decide)⟩

/-- C9: selection toggle is an involution: toggling the same key twice returns
the selection set to its original value (including the no-op empty key). -/
theorem toggleGroup_involutive (sel : Finset String) (key : String) :
    toggleGroup (toggleGroup sel key) key = sel := by
  by_cases hk : key = ""
  · simp [toggleGroup, hk]
  · by_cases hmem : key ∈ sel
    · simp [toggleGroup, hk, hmem, Finset.not_mem_erase, Finset.insert_erase]
    · simp [toggleGroup, hk, hmem, Finset.erase_insert]

/-- Witness for C9 at a concrete selection and key. -/
theorem toggleGroup_involutive_witness :
    toggleGroup (toggleGroup {"biceps"} "deltoid") "deltoid" = {"biceps"} :=
  toggleGroup_involutive {"biceps"} "deltoid"

lemma mem_foldl_addSlugKey (l : List String) (acc : Finset String) (x : String) :
    x ∈ l.foldl addSlugKey acc ↔
      x ∈ acc ∨ ∃ raw ∈ l, slugify raw = x ∧ x ≠ "" := by
  induction l generalizing acc with
  | nil => simp
  | cons r rs ih =>
    rw [List.foldl_cons, ih]
    simp only [addSlugKey]
    by_cases hr : slugify r = ""
    · rw [if_neg (not_not_intro hr)]
      constructor
      · rintro (hx | ⟨raw, hraw, hs, hne⟩)
        · exact Or.inl hx
        · exact Or.inr ⟨raw, List.mem_cons_of_mem r hraw, hs, hne⟩
      · rintro (hx | ⟨raw, hraw, hs, hne⟩)
        · exact Or.inl hx
        · rcases List.mem_cons.mp hraw with rfl | hraw
          · exact absurd (by rw [← hs]; exact hr) hne
          · exact Or.inr ⟨raw, hraw, hs, hne⟩
    · rw [if_pos hr, Finset.mem_insert]
      constructor
      · rintro ((rfl | hx) | ⟨raw, hraw, hs, hne⟩)
        · exact Or.inr ⟨r, List.mem_cons_self r rs, rfl, hr⟩
        · exact Or.inl hx
        · exact Or.inr ⟨raw, List.mem_cons_of_mem r hraw, hs, hne⟩
      · rintro (hx | ⟨raw, hraw, hs, hne⟩)
        · exact Or.inl (Or.inr hx)
        · rcases List.mem_cons.mp hraw with rfl | hraw
          · exact Or.inl (Or.inl hs.symm)
          · exact Or.inr ⟨raw, hraw, hs, hne⟩

lemma mem_variantsFold (l : List (String × List String)) (acc : Finset String)
    (x : String) :
    x ∈ l.foldl (fun acc p => p.2.foldl addSlugKey acc) acc ↔
      x ∈ acc ∨ ∃ p ∈ l, ∃ raw ∈ p.2, slugify raw = x ∧ x ≠ "" := by
  induction l generalizing acc with
  | nil => simp
  | cons p ps ih =>
    rw [List.foldl_cons, ih, mem_foldl_addSlugKey]
    constructor
    · rintro ((hx | ⟨raw, hraw, hs, hne⟩) | ⟨q, hq, raw, hraw, hs, hne⟩)
      · exact Or.inl hx
      · exact Or.inr ⟨p, List.mem_cons_self p ps, raw, hraw, hs, hne⟩
      · exact Or.inr ⟨q, List.mem_cons_of_mem p hq, raw, hraw, hs, hne⟩
    · rintro (hx | ⟨q, hq, raw, hraw, hs, hne⟩)
      · exact Or.inl (Or.inl hx)
      · rcases List.mem_cons.mp hq with rfl | hq
        · exact Or.inl (Or.inr ⟨raw, hraw, hs, hne⟩)
        · exact Or.inr ⟨q, hq, raw, hraw, hs, hne⟩

lemma mem_entryMeshKeys {e : MetaEntry} {gk x : String} :
    x ∈ entryMeshKeys e gk ↔
      x = gk ∨ ∃ p ∈ e.variants, ∃ raw ∈ p.2, slugify raw = x ∧ x ≠ "" := by
  unfold entryMeshKeys
  rw [Finset.mem_insert, mem_variantsFold]
  simp

lemma findGroup_map_update (idx : List Group) (k0 gk : String)
    (ms : Finset String) :
    findGroup (idx.map (fun g =>
        if g.key = k0 then { g with meshKeys := g.meshKeys ∪ ms } else g)) gk =
      (findGroup idx gk).map (fun g =>
        if g.key = k0 then { g with meshKeys := g.meshKeys ∪ ms } else g) := by
  unfold findGroup
  rw [List.find?_map]
  have hcomp : ((fun g : Group => decide (g.key = gk)) ∘ (fun g =>
      if g.key = k0 then { g with meshKeys := g.meshKeys ∪ ms } else g)) =
      (fun g : Group => decide (g.key = gk)) := by
    funext g
    by_cases h : g.key = k0 <;> simp [h]
  rw [hcomp]

lemma groupMembers_addGroupEntry (idx : List Group) (ke : String × MetaEntry)
    (gk x : String) :
    x ∈ groupMembers (addGroupEntry idx ke) gk ↔
      x ∈ groupMembers idx gk ∨
        (entryGroupKey ke = gk ∧ gk ≠ "" ∧ x ∈ entryMeshKeys ke.2 gk) := by
  unfold addGroupEntry
  by_cases h0 : entryGroupKey ke = ""
  · rw [if_pos h0]
    constructor
    · exact Or.inl
    · rintro (hx | ⟨rfl, hne, _⟩)
      · exact hx
      · exact absurd h0 hne
  · rw [if_neg h0]
    by_cases hany : idx.any (fun g => g.key = entryGroupKey ke)
    · rw [if_pos hany]
      cases hfind : findGroup idx gk with
      | none =>
        have hne : ¬(entryGroupKey ke = gk) := by
          intro he
          obtain ⟨g0, hg0, hkey⟩ := List.any_eq_true.mp hany
          have hno := List.find?_eq_none.mp hfind g0 hg0
          rw [he] at hkey
          exact hno hkey
        simp [groupMembers, findGroup_map_update, hfind, hne]
      | some g =>
        have hgkey : g.key = gk := by simpa using List.find?_some hfind
        by_cases hk : g.key = entryGroupKey ke
        · have hkeq : entryGroupKey ke = gk := by rw [← hk, hgkey]
          subst hkeq
          simp only [groupMembers, findGroup_map_update, hfind]
          simp only [Option.map_some']
          rw [if_pos hk]
          simp [Finset.mem_union, h0]
        · have hkeq : ¬(entryGroupKey ke = gk) := by
            intro he
            exact hk (by rw [hgkey, he])
          simp only [groupMembers, findGroup_map_update, hfind]
          simp only [Option.map_some']
          rw [if_neg hk]
          simp [hkeq]
    · rw [if_neg hany]
      have hnok : ∀ g ∈ idx, ¬(g.key = entryGroupKey ke) := by
        intro g hg hkey
        exact hany (List.any_eq_true.mpr ⟨g, hg, by simpa using hkey⟩)
      have happ : findGroup (idx ++ [newGroup ke]) gk =
          (findGroup idx gk).or (findGroup [newGroup ke] gk) := by
        unfold findGroup
        rw [List.find?_append]
      cases hfind : findGroup idx gk with
      | some g =>
        have hgkey : g.key = gk := by simpa using List.find?_some hfind
        have hne : ¬(entryGroupKey ke = gk) := by
          intro he
          exact hnok g (List.mem_of_find?_eq_some hfind) (by rw [hgkey, he])
        rw [hfind] at happ
        simp [groupMembers, happ, hfind, hne]
      | none =>
        rw [hfind] at happ
        by_cases hgk : entryGroupKey ke = gk
        · subst hgk
          have hone : findGroup [newGroup ke] (entryGroupKey ke) =
              some (newGroup ke) := by
            unfold findGroup
            simp [List.find?_cons, newGroup]
          rw [hone] at happ
          simp only [groupMembers]
          rw [happ, hfind]
          simp [h0, newGroup]
        · have hone : findGroup [newGroup ke] gk = none := by
            unfold findGroup
            simp [List.find?_cons, newGroup, hgk]
          rw [hone] at happ
          simp only [groupMembers]
          rw [happ, hfind]
          simp [hgk]

lemma wf_addGroupEntry {idx : List Group} (h : ∀ g ∈ idx, GroupWF g)
    (ke : String × MetaEntry) : ∀ g ∈ addGroupEntry idx ke, GroupWF g := by
  intro g hg
  unfold addGroupEntry at hg
  by_cases h0 : entryGroupKey ke = ""
  · rw [if_pos h0] at hg
    exact h g hg
  · rw [if_neg h0] at hg
    by_cases hany : idx.any (fun g => g.key = entryGroupKey ke)
    · rw [if_pos hany] at hg
      obtain ⟨g0, hg0, rfl⟩ := List.mem_map.mp hg
      by_cases hk : g0.key = entryGroupKey ke
      · rw [if_pos hk]
        obtain ⟨hne, hslug, hmem⟩ := h g0 hg0
        exact ⟨hne, hslug, Finset.mem_union_left _ hmem⟩
      · rw [if_neg hk]
        exact h g0 hg0
    · rw [if_neg hany] at hg
      rcases List.mem_append.mp hg with hg | hg
      · exact h g hg
      · rw [List.mem_singleton] at hg
        subst hg
        exact ⟨h0, rfl, Finset.mem_insert_self _ _⟩

lemma keys_addGroupEntry_update (idx : List Group) (ke : String × MetaEntry)
    (hany : idx.any (fun g => g.key = entryGroupKey ke))
    (h0 : ¬(entryGroupKey ke = "")) :
    (addGroupEntry idx ke).map Group.key = idx.map Group.key := by
  unfold addGroupEntry
  rw [if_neg h0, if_pos hany, List.map_map]
  apply List.map_congr_left
  intro g _
  by_cases h : g.key = entryGroupKey ke <;> simp [h]

lemma nodup_keys_addGroupEntry {idx : List Group}
    (h : (idx.map Group.key).Nodup) (ke : String × MetaEntry) :
    ((addGroupEntry idx ke).map Group.key).Nodup := by
  by_cases h0 : entryGroupKey ke = ""
  · unfold addGroupEntry
    rw [if_pos h0]
    exact h
  · by_cases hany : idx.any (fun g => g.key = entryGroupKey ke)
    · rw [keys_addGroupEntry_update idx ke hany h0]
      exact h
    · unfold addGroupEntry
      rw [if_neg h0, if_neg hany, List.map_append]
      rw [List.nodup_append]
      refine ⟨h, List.nodup_singleton _, ?_⟩
      intro a ha hb
      rw [List.map_singleton, List.mem_singleton] at hb
      subst hb
      obtain ⟨g, hg, hkey⟩ := List.mem_map.mp ha
      exact hany (List.any_eq_true.mpr ⟨g, hg, by simpa using hkey⟩)

lemma wf_foldl_addGroupEntry (md : Metadata) :
    ∀ (idx : List Group), (∀ g ∈ idx, GroupWF g) →
      ∀ g ∈ md.foldl addGroupEntry idx, GroupWF g := by
  induction md with
  | nil => intro idx h; exact h
  | cons ke md ih =>
    intro idx h
    rw [List.foldl_cons]
    exact ih _ (wf_addGroupEntry h ke)

lemma wf_buildGroupIndex (md : Metadata) : ∀ g ∈ buildGroupIndex md, GroupWF g :=
  wf_foldl_addGroupEntry md [] (by intro g hg; cases hg)

lemma nodup_foldl_addGroupEntry (md : Metadata) :
    ∀ (idx : List Group), (idx.map Group.key).Nodup →
      ((md.foldl addGroupEntry idx).map Group.key).Nodup := by
  induction md with
  | nil => intro idx h; exact h
  | cons ke md ih =>
    intro idx h
    rw [List.foldl_cons]
    exact ih _ (nodup_keys_addGroupEntry h ke)

lemma nodup_keys_buildGroupIndex (md : Metadata) :
    ((buildGroupIndex md).map Group.key).Nodup :=
  nodup_foldl_addGroupEntry md [] List.nodup_nil

lemma mem_groupMembers_foldl (md : Metadata) :
    ∀ (idx : List Group) (gk x : String),
      x ∈ groupMembers (md.foldl addGroupEntry idx) gk ↔
        x ∈ groupMembers idx gk ∨
          ∃ ke ∈ md, entryGroupKey ke = gk ∧ gk ≠ "" ∧ x ∈ entryMeshKeys ke.2 gk := by
  induction md with
  | nil => intro idx gk x; simp
  | cons ke md ih =>
    intro idx gk x
    rw [List.foldl_cons, ih, groupMembers_addGroupEntry]
    constructor
    · rintro ((hx | ⟨hkeq, hne, hx⟩) | ⟨ke2, hke2, hkeq, hne, hx⟩)
      · exact Or.inl hx
      · exact Or.inr ⟨ke, List.mem_cons_self ke md, hkeq, hne, hx⟩
      · exact Or.inr ⟨ke2, List.mem_cons_of_mem ke hke2, hkeq, hne, hx⟩
    · rintro (hx | ⟨ke2, hke2, hkeq, hne, hx⟩)
      · exact Or.inl (Or.inl hx)
      · rcases List.mem_cons.mp hke2 with rfl | hke2
        · exact Or.inl (Or.inr ⟨hkeq, hne, hx⟩)
        · exact Or.inr ⟨ke2, hke2, hkeq, hne, hx⟩

lemma mem_groupMembers_buildGroupIndex (md : Metadata) (gk x : String) :
    x ∈ groupMembers (buildGroupIndex md) gk ↔
      ∃ ke ∈ md, entryGroupKey ke = gk ∧ gk ≠ "" ∧ x ∈ entryMeshKeys ke.2 gk := by
  rw [buildGroupIndex, mem_groupMembers_foldl]
  simp [groupMembers, findGroup]

/-- C6: for every metadata mapping the built group index has no duplicate
keys; every group's key is the non-empty slug of its display name and a member
of its own member set; and membership in the group stored under `gk` is
exactly contribution by some metadata entry deriving `gk` (entries with empty
derived keys are skipped, colliding entries union their member sets). -/
theorem buildGroupIndex_correct (md : Metadata) :
    ((buildGroupIndex md).map Group.key).Nodup ∧
      (∀ g ∈ buildGroupIndex md,
        g.key ≠ "" ∧ g.key = slugify g.name ∧ g.key ∈ g.meshKeys) ∧
      (∀ gk x, x ∈ groupMembers (buildGroupIndex md) gk ↔
        ∃ ke ∈ md, entryGroupKey ke = gk ∧ gk ≠ "" ∧ x ∈ entryMeshKeys ke.2 gk) :=
  ⟨nodup_keys_buildGroupIndex md,
   fun g hg => wf_buildGroupIndex md g hg,
   fun gk x => mem_groupMembers_buildGroupIndex md gk x⟩

/-- Witness for C6 on concrete colliding metadata: the two entries of
`mdMergeEx` merge into one `biceps` group holding both entries' members. -/
theorem buildGroupIndex_correct_witness :
    ((buildGroupIndex mdMergeEx).map Group.key).Nodup ∧
      "x2" ∈ groupMembers (buildGroupIndex mdMergeEx) "biceps" ∧
      "x1" ∈ groupMembers (buildGroupIndex mdMergeEx) "biceps" :=
  ⟨(buildGroupIndex_correct mdMergeEx).1,
   ((buildGroupIndex_correct mdMergeEx).2.2 "biceps" "x2").mpr
     ⟨("biceps?", ⟨some "Biceps", [("R", ["x2.r"])]⟩), by decide, by decide,
      by decide, by decide⟩,
   ((buildGroupIndex_correct mdMergeEx).2.2 "biceps" "x1").mpr
     ⟨("Biceps", ⟨none, [("L", ["x1.l"])]⟩), by decide, by decide,
      by decide, by decide⟩⟩

/-- C5: over any built group index, the expanded mesh-key set is the union,
over the selected keys, of the matching group's member set, or of the
singleton of the key itself when no group matches. -/
theorem computeSelectedMeshKeys_correct (md : Metadata) (sel : Finset String)
    (x : String) :
    x ∈ computeSelectedMeshKeys sel (buildGroupIndex md) ↔
      ∃ gk ∈ sel, match findGroup (buildGroupIndex md) gk with
        | some g => x ∈ g.meshKeys
        | none => x = gk := by
  simp only [computeSelectedMeshKeys, Finset.mem_biUnion]
  apply exists_congr
  intro gk
  apply and_congr_right
  intro _
  cases hfind : findGroup (buildGroupIndex md) gk with
  | none => simp
  | some g =>
    have hne : g.meshKeys ≠ ∅ := by
      have hg : g ∈ buildGroupIndex md :=
        List.mem_of_find?_eq_some hfind
      intro he
      have hmem := (wf_buildGroupIndex md g hg).2.2
      rw [he] at hmem
      exact absurd hmem (Finset.not_mem_empty _)
    simp [hne]

/-- Witness for C5: selecting `{m1, m3}` over `mdExpandEx`, whose groups have
member sets `{m1, m2}` and `{m2, m3}`, expands to `{m1, m2, m3}`. -/
theorem computeSelectedMeshKeys_correct_witness :
    computeSelectedMeshKeys {"m1", "m3"} (buildGroupIndex mdExpandEx) =
        {"m1", "m2", "m3"} ∧
      "m2" ∈ computeSelectedMeshKeys {"m1", "m3"} (buildGroupIndex mdExpandEx) :=
  ⟨Finset.Subset.antisymm (by decide) (by decide),
   (computeSelectedMeshKeys_correct mdExpandEx {"m1", "m3"} "m2").mpr
     ⟨"m1", by decide, by
       cases hf : findGroup (buildGroupIndex mdExpandEx) "m1" with
       | none =>
         have hsome : (findGroup (buildGroupIndex mdExpandEx) "m1").isSome = true :=
           by decide
         rw [hf] at hsome
         exact absurd hsome (by decide)
       | some g =>
         have hmem : "m2" ∈ groupMembers (buildGroupIndex mdExpandEx) "m1" :=
           by decide
         unfold groupMembers at hmem
         rw [hf] at hmem
         exact hmem⟩⟩

/-- C2: after a repaint every mesh was assigned `setMeshState` with the state
`chooseState S partKey`, a function of the expanded set and the part key
only; `chooseState` is `base` exactly when the expanded set is empty, and on
a non-empty expanded set (which never contains the empty key) it is `sel`
exactly for members and `dim` exactly for non-members — so exactly one of the
three states holds for each mesh. -/
theorem applySelectionToMeshes_state_machine :
    (∀ (sel : Finset String) (idx : List Group) (meshes : List Mesh),
      applySelectionToMeshes sel idx meshes =
        meshes.map (fun mesh =>
          setMeshState mesh
            (chooseState (computeSelectedMeshKeys sel idx) mesh.partKey))) ∧
    (∀ mk, chooseState ∅ mk = MState.base) ∧
    (∀ (S : Finset String) (mk : String), S ≠ ∅ → "" ∉ S →
      (chooseState S mk = MState.sel ↔ mk ∈ S) ∧
      (chooseState S mk = MState.dim ↔ mk ∉ S) ∧
      chooseState S mk ≠ MState.base) ∧
    (∀ (md : Metadata) (sel : Finset String), "" ∉ sel →
      "" ∉ computeSelectedMeshKeys sel (buildGroupIndex md)) := by
  refine ⟨?_, ?_, ?_, ?_⟩
  · intro sel idx meshes
    unfold applySelectionToMeshes
    apply List.map_congr_left
    intro mesh _
    unfold chooseState
    by_cases h1 : computeSelectedMeshKeys sel idx = ∅
    · simp [h1]
    · by_cases h2 : mesh.partKey ≠ "" ∧
          mesh.partKey ∈ computeSelectedMeshKeys sel idx
      · simp [h1, h2]
      · simp [h1, h2]
  · intro mk
    simp [chooseState]
  · intro S mk hS hno
    unfold chooseState
    rw [if_neg hS]
    by_cases h2 : mk ≠ "" ∧ mk ∈ S
    · rw [if_pos h2]
      refine ⟨by simp [h2.2], by simp [h2.2], by simp⟩
    · rw [if_neg h2]
      have hnm : mk ∉ S := by
        intro hmem
        rcases not_and_or.mp h2 with hk | hk
        · rw [not_not.mp hk] at hmem
          exact hno hmem
        · exact hk hmem
      refine ⟨by simp [hnm], by simp [hnm], by simp⟩
  · intro md sel hsel h
    simp only [computeSelectedMeshKeys, Finset.mem_biUnion] at h
    obtain ⟨gk, hgk, hx⟩ := h
    rcases hfind : findGroup (buildGroupIndex md) gk with _ | g
    · rw [hfind] at hx
      simp only [Finset.mem_singleton] at hx
      subst hx
      exact hsel hgk
    · rw [hfind] at hx
      have hx' : ("" : String) ∈
          (if g.meshKeys = ∅ then ({gk} : Finset String) else g.meshKeys) := hx
      by_cases hne : g.meshKeys = ∅
      · rw [if_pos hne] at hx'
        simp only [Finset.mem_singleton] at hx'
        subst hx'
        exact hsel hgk
      · rw [if_neg hne] at hx'
        have hmem : ("" : String) ∈ groupMembers (buildGroupIndex md) gk := by
          unfold groupMembers
          rw [hfind]
          exact hx'
        obtain ⟨ke, _, _, hgkne, hx2⟩ :=
          (mem_groupMembers_buildGroupIndex md gk "").mp hmem
        rcases mem_entryMeshKeys.mp hx2 with hcon | ⟨_, _, _, _, _, hcon⟩
        · exact hgkne hcon.symm
        · exact hcon rfl

/-- Witness for C2 at concrete inputs (one mesh, one selected group). -/
theorem applySelectionToMeshes_state_machine_witness :
    chooseState {"m1"} "m1" = MState.sel ∧
      chooseState {"m1"} "zz" = MState.dim ∧
      ("" : String) ∉ computeSelectedMeshKeys {"m1"} (buildGroupIndex mdExpandEx) :=
  ⟨((applySelectionToMeshes_state_machine.2.2.1 {"m1"} "m1" (by decide)
      (by decide)).1).mpr (by decide),
   ((applySelectionToMeshes_state_machine.2.2.1 {"m1"} "zz" (by decide)
      (by decide)).2.1).mpr (by decide),
   applySelectionToMeshes_state_machine.2.2.2 mdExpandEx {"m1"} (by decide)⟩

lemma presLike_refl (m : Material) : presLike m m := ⟨rfl, rfl, rfl, rfl⟩

lemma presLike_trans {a b c : Material} (h1 : presLike a b)
    (h2 : presLike b c) : presLike a c :=
  ⟨h1.1.trans h2.1, h1.2.1.trans h2.2.1, h1.2.2.1.trans h2.2.2.1,
   h1.2.2.2.trans h2.2.2.2⟩

lemma applyMatState_presLike (state : MState) (o : Option MatSnapshot)
    (m : Material) : presLike (applyMatState state o m) m := by
  cases state with
  | base =>
    cases o with
    | none => exact ⟨rfl, rfl, rfl, rfl⟩
    | some o =>
      refine ⟨?_, ?_, by simp [applyMatState], by simp [applyMatState]⟩
      · simp only [applyMatState]
        split_ifs with h
        · simp [h.1, h.2]
        · rfl
      · simp only [applyMatState]
        split_ifs with h
        · simp [h.1, h.2]
        · rfl
  | dim => refine ⟨?_, ?_, ?_, ?_⟩ <;> simp [applyMatState]
  | sel =>
    cases o with
    | none => refine ⟨?_, ?_, ?_, ?_⟩ <;> simp [applyMatState]
    | some o =>
      refine ⟨?_, by simp [applyMatState], by simp [applyMatState],
        by simp [applyMatState]⟩
      simp only [applyMatState]
      split_ifs with h
      · simp [h.1, h.2]
      · rfl

lemma updateMats_getElem (state : MState) (mats : List (Option Material))
    (base : List MatSnapshot) (i : Nat) :
    (updateMats state mats base)[i]? =
      (mats[i]?).map (fun om => om.map (applyMatState state base[i]?)) := by
  induction mats generalizing base i with
  | nil => simp [updateMats]
  | cons om ms ih =>
    cases i with
    | zero => cases base <;> simp [updateMats]
    | succ n =>
      cases base with
      | nil => simpa [updateMats] using ih [] n
      | cons o os => simpa [updateMats] using ih os n

lemma foldl_setMeshState_matBase (ss : List MState) (mesh : Mesh) :
    (ss.foldl setMeshState mesh).matBase = mesh.matBase := by
  induction ss generalizing mesh with
  | nil => rfl
  | cons s ss ih =>
    rw [List.foldl_cons]
    exact (ih (setMeshState mesh s)).trans rfl

lemma foldl_setMeshState_track (ss : List MState) (mesh : Mesh) (i : Nat)
    (c : Material) (h : mesh.material[i]? = some (some c)) :
    ∃ m1, (ss.foldl setMeshState mesh).material[i]? = some (some m1) ∧
      presLike m1 c := by
  induction ss generalizing mesh c with
  | nil => exact ⟨c, h, presLike_refl c⟩
  | cons s ss ih =>
    rw [List.foldl_cons]
    have hstep : (setMeshState mesh s).material[i]? =
        some (some (applyMatState s (mesh.matBase[i]?) c)) := by
      show (updateMats s mesh.material mesh.matBase)[i]? = _
      rw [updateMats_getElem, h]
      rfl
    obtain ⟨m1, hm1, hp⟩ :=
      ih (setMeshState mesh s) (applyMatState s (mesh.matBase[i]?) c) hstep
    exact ⟨m1, hm1, presLike_trans hp (applyMatState_presLike s _ c)⟩

lemma ensureUniqueMaterials_material_getElem (mesh : Mesh) (i : Nat) :
    (ensureUniqueMaterials mesh).material[i]? =
      ((mesh.material.map (fun om => om.getD defaultStandardMaterial))[i]?).map
        some := by
  simp [ensureUniqueMaterials]

lemma ensureUniqueMaterials_matBase_getElem (mesh : Mesh) (i : Nat) :
    (ensureUniqueMaterials mesh).matBase[i]? =
      ((mesh.material.map (fun om => om.getD defaultStandardMaterial))[i]?).map
        snapshotMaterial := by
  simp [ensureUniqueMaterials]

/-- C3: for a mesh whose materials were cloned and snapshotted at load time
(`ensureUniqueMaterials`), applying any sequence of states and then `base`
restores every material's color, emissive, opacity, transparency and (where
the property exists) depth flags exactly to the snapshot: the repaint is
computed from the snapshot, not from the previously rendered state. -/
theorem setMeshState_base_restores_snapshot (mesh : Mesh) (ss : List MState)
    (i : Nat) (m : Material) (o : MatSnapshot)
    (hm : (setMeshState (ss.foldl setMeshState (ensureUniqueMaterials mesh))
        MState.base).material[i]? = some (some m))
    (ho : (ensureUniqueMaterials mesh).matBase[i]? = some o) :
    m.color = o.color ∧ m.emissive = o.emissive ∧ m.opacity = some o.opacity ∧
      m.transparent = o.transparent ∧
      (∀ b, m.depthWrite = some b → b = o.depthWrite) ∧
      (∀ b, m.depthTest = some b → b = o.depthTest) := by
  rcases hcl : (mesh.material.map (fun om => om.getD defaultStandardMaterial))[i]?
    with _ | c
  · rw [ensureUniqueMaterials_matBase_getElem, hcl] at ho
    cases ho
  · have hc : (ensureUniqueMaterials mesh).material[i]? = some (some c) := by
      rw [ensureUniqueMaterials_material_getElem, hcl]
      rfl
    have hoc : o = snapshotMaterial c := by
      rw [ensureUniqueMaterials_matBase_getElem, hcl] at ho
      exact (Option.some_inj.mp ho).symm
    obtain ⟨m1, hm1, hp⟩ :=
      foldl_setMeshState_track ss (ensureUniqueMaterials mesh) i c hc
    have hbase :
        (ss.foldl setMeshState (ensureUniqueMaterials mesh)).matBase[i]? =
          some o := by
      rw [foldl_setMeshState_matBase]
      exact ho
    have hfin : (setMeshState
        (ss.foldl setMeshState (ensureUniqueMaterials mesh))
        MState.base).material[i]? =
        some (some (applyMatState MState.base (some o) m1)) := by
      show (updateMats MState.base _ _)[i]? = _
      rw [updateMats_getElem, hm1, hbase]
      rfl
    rw [hfin] at hm
    have hmeq : applyMatState MState.base (some o) m1 = m := by
      simpa using hm
    subst hmeq
    have hco : o.color = c.color := by rw [hoc]; rfl
    have heo : o.emissive = c.emissive := by rw [hoc]; rfl
    refine ⟨?_, ?_, rfl, rfl, ?_, ?_⟩
    · simp only [applyMatState]
      split_ifs with h
      · rfl
      · cases hcc : c.color with
        | none =>
          have : m1.color.isSome = false := by rw [hp.1, hcc]; rfl
          have hnone : m1.color = none :=
            Option.not_isSome_iff_eq_none.mp (by simp [this])
          rw [hnone, hco, hcc]
        | some v =>
          exact absurd ⟨by rw [hp.1, hcc]; rfl, by rw [hco, hcc]; rfl⟩ h
    · simp only [applyMatState]
      split_ifs with h
      · rfl
      · cases hcc : c.emissive with
        | none =>
          have : m1.emissive.isSome = false := by rw [hp.2.1, hcc]; rfl
          have hnone : m1.emissive = none :=
            Option.not_isSome_iff_eq_none.mp (by simp [this])
          rw [hnone, heo, hcc]
        | some v =>
          exact absurd ⟨by rw [hp.2.1, hcc]; rfl, by rw [heo, hcc]; rfl⟩ h
    · intro b hb
      simp only [applyMatState] at hb
      cases hw : m1.depthWrite with
      | none => rw [hw] at hb; cases hb
      | some w =>
        rw [hw] at hb
        simpa using hb.symm
    · intro b hb
      simp only [applyMatState] at hb
      cases hw : m1.depthTest with
      | none => rw [hw] at hb; cases hb
      | some w =>
        rw [hw] at hb
        simpa using hb.symm

/-- Witness for C3: dim then select then base on `meshEx` restores the
snapshot values exactly. -/
theorem setMeshState_base_restores_snapshot_witness :
    mRestoredEx.color = oEx.color ∧ mRestoredEx.emissive = oEx.emissive ∧
      mRestoredEx.opacity = some oEx.opacity ∧
      mRestoredEx.transparent = oEx.transparent :=
  ⟨(setMeshState_base_restores_snapshot meshEx [MState.dim, MState.sel] 0
      mRestoredEx oEx (by decide) (by decide)).1,
   (setMeshState_base_restores_snapshot meshEx [MState.dim, MState.sel] 0
      mRestoredEx oEx (by decide) (by decide)).2.1,
   (setMeshState_base_restores_snapshot meshEx [MState.dim, MState.sel] 0
      mRestoredEx oEx (by decide) (by decide)).2.2.1,
   (setMeshState_base_restores_snapshot meshEx [MState.dim, MState.sel] 0
      mRestoredEx oEx (by decide) (by decide)).2.2.2.1⟩

lemma heapWriteStep_getElem_ne (state : MState) (base : List MatSnapshot)
    (h : List Material) (p : Nat × Option Nat) (id : Nat)
    (hne : ∀ j, p.2 = some j → j ≠ id) :
    (heapWriteStep state base h p)[id]? = h[id]? := by
  rcases p with ⟨i, r⟩
  cases r with
  | none => rfl
  | some j =>
    show (match h[j]? with
      | none => h
      | some mat => h.set j (applyMatState state base[i]? mat))[id]? = h[id]?
    cases hj : h[j]? with
    | none => rfl
    | some mat => exact List.getElem?_set_ne (hne j rfl)

lemma foldl_heapWriteStep_getElem_ne (state : MState) (base : List MatSnapshot)
    (id : Nat) :
    ∀ (l : List (Nat × Option Nat)) (heap : List Material),
      (∀ p ∈ l, ∀ j, p.2 = some j → j ≠ id) →
      (l.foldl (heapWriteStep state base) heap)[id]? = heap[id]? := by
  intro l
  induction l with
  | nil => intro heap _; rfl
  | cons p ps ih =>
    intro heap hp
    rw [List.foldl_cons,
      ih _ (fun q hq => hp q (List.mem_cons_of_mem p hq)),
      heapWriteStep_getElem_ne state base heap p id
        (hp p (List.mem_cons_self p ps))]

lemma snd_mem_of_mem_enum {α : Type} {l : List α} {p : Nat × α}
    (h : p ∈ l.enum) : p.2 ∈ l := by
  rcases p with ⟨i, x⟩
  obtain ⟨_, hlt, hx⟩ := List.mem_enumFrom h
  simp only [Nat.zero_add, Nat.sub_zero] at hlt hx
  rw [hx]
  exact List.getElem_mem _

lemma setMeshStateH_outside (heap : List Material) (mesh : HeapMesh)
    (state : MState) (id : Nat) (h : ∀ r ∈ refIds mesh, r ≠ id) :
    (setMeshStateH heap mesh state).1[id]? = heap[id]? := by
  apply foldl_heapWriteStep_getElem_ne
  intro p hp j hj
  apply h
  unfold refIds
  rw [List.mem_filterMap]
  exact ⟨p.2, snd_mem_of_mem_enum hp, by rw [hj]; rfl⟩

lemma refIds_ensureUniqueMaterialsH (heap : List Material) (mesh : HeapMesh) :
    refIds (ensureUniqueMaterialsH heap mesh).2 =
      (List.range mesh.matRefs.length).map (fun i => heap.length + i) := by
  unfold refIds ensureUniqueMaterialsH
  rw [List.filterMap_map]
  have : (id ∘ fun i => some (heap.length + i)) =
      (some ∘ fun i => heap.length + i) := rfl
  rw [this, List.filterMap_eq_map]

lemma length_ensureUniqueMaterialsH (heap : List Material) (mesh : HeapMesh) :
    (ensureUniqueMaterialsH heap mesh).1.length =
      heap.length + mesh.matRefs.length := by
  simp [ensureUniqueMaterialsH]

lemma buildMeshIndexH_spec :
    ∀ (meshes : List HeapMesh) (heap : List Material),
      heap.length ≤ (buildMeshIndexH heap meshes).1.length ∧
      (∀ m ∈ (buildMeshIndexH heap meshes).2, ∀ id ∈ refIds m,
        heap.length ≤ id ∧ id < (buildMeshIndexH heap meshes).1.length) ∧
      List.Pairwise (fun a b => ∀ i ∈ refIds a, ∀ j ∈ refIds b, i ≠ j)
        (buildMeshIndexH heap meshes).2 := by
  intro meshes
  induction meshes with
  | nil => intro heap; exact ⟨le_refl _, by simp [buildMeshIndexH], by
      simp [buildMeshIndexH]⟩
  | cons mesh rest ih =>
    intro heap
    obtain ⟨ihlen, ihmem, ihpair⟩ := ih (ensureUniqueMaterialsH heap mesh).1
    have hlen1 : heap.length ≤ (ensureUniqueMaterialsH heap mesh).1.length := by
      rw [length_ensureUniqueMaterialsH]
      exact Nat.le_add_right _ _
    have hhead : ∀ id ∈ refIds (ensureUniqueMaterialsH heap mesh).2,
        heap.length ≤ id ∧ id < (ensureUniqueMaterialsH heap mesh).1.length := by
      intro id hid
      rw [refIds_ensureUniqueMaterialsH] at hid
      obtain ⟨i, hi, rfl⟩ := List.mem_map.mp hid
      rw [List.mem_range] at hi
      rw [length_ensureUniqueMaterialsH]
      omega
    refine ⟨le_trans hlen1 ihlen, ?_, ?_⟩
    · intro m hm id hid
      rcases List.mem_cons.mp hm with rfl | hm
      · exact ⟨(hhead id hid).1, lt_of_lt_of_le (hhead id hid).2 ihlen⟩
      · exact ⟨le_trans hlen1 (ihmem m hm id hid).1, (ihmem m hm id hid).2⟩
    · show List.Pairwise _ ((ensureUniqueMaterialsH heap mesh).2 ::
        (buildMeshIndexH (ensureUniqueMaterialsH heap mesh).1 rest).2)
      rw [List.pairwise_cons]
      refine ⟨?_, ihpair⟩
      intro b hb i hi j hj
      have h1 : i < (ensureUniqueMaterialsH heap mesh).1.length :=
        (hhead i hi).2
      have h2 : (ensureUniqueMaterialsH heap mesh).1.length ≤ j :=
        (ihmem b hb j hj).1
      omega

/-- C10: after the mesh-index rebuild clones every mesh's materials, repainting
one mesh never changes any material referenced by a different mesh — even when
the two meshes originally shared the same material object in the source
asset. -/
theorem setMeshStateH_isolated (heap : List Material) (meshes : List HeapMesh)
    (i j : Nat) (mi mj : HeapMesh) (state : MState) (id : Nat)
    (hi : (buildMeshIndexH heap meshes).2[i]? = some mi)
    (hj : (buildMeshIndexH heap meshes).2[j]? = some mj)
    (hij : i ≠ j) (hid : id ∈ refIds mj) :
    (setMeshStateH (buildMeshIndexH heap meshes).1 mi state).1[id]? =
      (buildMeshIndexH heap meshes).1[id]? := by
  have hpair := (buildMeshIndexH_spec meshes heap).2.2
  rw [List.pairwise_iff_getElem] at hpair
  obtain ⟨hilen, higet⟩ := List.getElem?_eq_some.mp hi
  obtain ⟨hjlen, hjget⟩ := List.getElem?_eq_some.mp hj
  apply setMeshStateH_outside
  intro r hr
  rcases Nat.lt_or_ge i j with hlt | hge
  · have := hpair i j hilen hjlen hlt
    rw [higet, hjget] at this
    exact this r hr id hid
  · have hgt : j < i := Nat.lt_of_le_of_ne hge (Ne.symm hij)
    have := hpair j i hjlen hilen hgt
    rw [higet, hjget] at this
    exact fun he => this id hid r hr he.symm

/-- Witness for C10: dimming mesh A leaves mesh B's (originally shared)
material untouched. -/
theorem setMeshStateH_isolated_witness :
    (setMeshStateH (buildMeshIndexH heapEx [hMeshA, hMeshB]).1 ensAEx
        MState.dim).1[2]? =
      (buildMeshIndexH heapEx [hMeshA, hMeshB]).1[2]? :=
  setMeshStateH_isolated heapEx [hMeshA, hMeshB] 0 1 ensAEx ensBEx MState.dim 2
    (by decide) (by decide) (by decide) (by decide)

/-- C7: the claimed fail-fast contract does not hold of the code.
`"toString"` is absent from the static catalog, yet the guard tests the
truthiness of a plain-object property access, so the member inherited from
`Object.prototype` passes it: the call does not reject — it sets the active
system, clears the selection and bumps the load token, and the resumed loads
then issue I/O on `undefined` URLs.  A key that is genuinely not a property,
such as `"skin"`, is rejected synchronously with the state returned exactly
unchanged, which is the behaviour the claim (and the spec's UnknownSystem
contract) describes for every non-catalog key. -/
theorem loadSystemStart_inherited_key_accepted :
    (SYSTEMS.find? (fun p => p.1 = "toString")).isNone = true ∧
      loadSystemStart stEx "toString" =
        ({ stEx with activeSystem := "toString", selectedGroupKeys := ∅, loadToken := stEx.loadToken + 1 },
          Except.ok (stEx.loadToken + 1)) ∧
      (loadSystemStart stEx "toString").1 ≠ stEx ∧
      loadSystemStart stEx "skin" = (stEx, Except.error "Unknown system: skin") := by
  refine ⟨by decide, rfl, by decide, rfl⟩

lemma interleave_nil_left {α : Type} :
    ∀ {xs l σ : List α}, Interleave xs l σ → xs = [] → σ = l := by
  intro xs l σ h
  induction h with
  | nil_left _ => intro _; rfl
  | nil_right _ => intro h; rw [h]
  | cons_left _ _ => intro h; cases h
  | cons_right _ ih => intro h; rw [ih h]

lemma interleave_nil_right {α : Type} :
    ∀ {xs l σ : List α}, Interleave xs l σ → l = [] → σ = xs := by
  intro xs l σ h
  induction h with
  | nil_left _ => intro h; rw [h]
  | nil_right _ => intro _; rfl
  | cons_left _ ih => intro h; rw [ih h]
  | cons_right _ _ => intro h; cases h

lemma interleave_two_two {α : Type} {a b c d : α} {σ : List α}
    (h : Interleave [a, b] [c, d] σ) :
    σ = [a, b, c, d] ∨ σ = [a, c, b, d] ∨ σ = [a, c, d, b] ∨
      σ = [c, a, b, d] ∨ σ = [c, a, d, b] ∨ σ = [c, d, a, b] := by
  cases h with
  | cons_left h1 =>
    cases h1 with
    | cons_left h2 =>
      rw [interleave_nil_left h2 rfl]
      exact Or.inl rfl
    | cons_right h2 =>
      cases h2 with
      | cons_left h3 =>
        rw [interleave_nil_left h3 rfl]
        exact Or.inr (Or.inl rfl)
      | cons_right h3 =>
        rw [interleave_nil_right h3 rfl]
        exact Or.inr (Or.inr (Or.inl rfl))
  | cons_right h1 =>
    cases h1 with
    | cons_left h2 =>
      cases h2 with
      | cons_left h3 =>
        rw [interleave_nil_left h3 rfl]
        exact Or.inr (Or.inr (Or.inr (Or.inl rfl)))
      | cons_right h3 =>
        rw [interleave_nil_right h3 rfl]
        exact Or.inr (Or.inr (Or.inr (Or.inr (Or.inl rfl))))
    | cons_right h2 =>
      rw [interleave_nil_right h2 rfl]
      exact Or.inr (Or.inr (Or.inr (Or.inr (Or.inr rfl))))

lemma resumeGroups_stale (st : ViewerState) (t : Nat) (j : Metadata)
    (h : t ≠ st.loadToken) : resumeGroups st t j = st := by
  unfold resumeGroups
  rw [if_pos h]

lemma resumeModel_stale (st : ViewerState) (t : Nat) (mdl : RawModel)
    (h : t ≠ st.loadToken) :
    resumeModel st t mdl = { st with disposed := insert mdl.id st.disposed } := by
  unfold resumeModel
  rw [if_pos h]

lemma resumeGroups_live (st : ViewerState) (t : Nat) (j : Metadata)
    (h : t = st.loadToken) :
    resumeGroups st t j = { st with groupByKey := buildGroupIndex j } := by
  subst h
  unfold resumeGroups
  rw [if_neg (by simp)]

lemma resumeModel_live (st : ViewerState) (t : Nat) (obj : RawModel)
    (h : t = st.loadToken) :
    resumeModel st t obj =
      { st with
        modelRoot := some obj
        scene :=
          (match st.modelRoot with
           | some old => st.scene.erase old.id
           | none => st.scene) ++ [obj.id]
        disposed :=
          match st.modelRoot with
          | some old => insert old.id st.disposed
          | none => st.disposed
        meshList := applySelectionToMeshes st.selectedGroupKeys st.groupByKey
          (obj.meshes.map processMesh)
        meshByKey := buildMeshByKey (applySelectionToMeshes st.selectedGroupKeys
          st.groupByKey (obj.meshes.map processMesh)) } := by
  subst h
  unfold resumeModel
  rw [if_neg (by simp)]

lemma cancellation_core (ST : ViewerState) (t1 : Nat)
    (h : t1 ≠ ST.loadToken) (bMeta mMeta : Metadata) (bModel mModel : RawModel)
    (σ : List (ViewerState → ViewerState))
    (hσ : Interleave
      [fun st => resumeGroups st t1 bMeta, fun st => resumeModel st t1 bModel]
      [fun st => resumeGroups st ST.loadToken mMeta,
       fun st => resumeModel st ST.loadToken mModel] σ) :
    σ.foldl (fun st f => f st) ST =
      { resumeModel (resumeGroups ST ST.loadToken mMeta) ST.loadToken mModel
        with disposed := insert bModel.id (resumeModel (resumeGroups ST ST.loadToken mMeta) ST.loadToken mModel).disposed } := by
  rcases interleave_two_two hσ with hs | hs | hs | hs | hs | hs <;> subst hs <;>
    simp only [List.foldl_cons, List.foldl_nil] <;>
    simp only [resumeGroups_stale, resumeModel_stale, resumeGroups_live,
      resumeModel_live, h, ne_eq, not_false_eq_true, not_true_eq_false] <;>
    cases hroot : ST.modelRoot <;>
    simp [hroot, Finset.Insert.comm]

/-- C1: switch to bones, then to muscles before bones' loads resolve.  In
every completion order of the four pending resumptions, (a) a stale metadata
completion changes nothing, (b) a stale model completion only disposes the
model it had loaded, and (c) the final state is exactly the state of a clean
muscles switch with, additionally, the bones model disposed — the active
index holds only muscles' primitives and bones' resources are released. -/
theorem switchSystem_cancellation (st0 : ViewerState)
    (bMeta mMeta : Metadata) (bModel mModel : RawModel)
    (σ : List (ViewerState → ViewerState))
    (hσ : Interleave
      [fun st => resumeGroups st (bonesToken st0) bMeta,
       fun st => resumeModel st (bonesToken st0) bModel]
      [fun st => resumeGroups st (switchScenarioStart st0).loadToken mMeta,
       fun st => resumeModel st (switchScenarioStart st0).loadToken mModel]
      σ) :
    (∀ (st : ViewerState) (t : Nat) (j : Metadata), t ≠ st.loadToken →
      resumeGroups st t j = st) ∧
    (∀ (st : ViewerState) (t : Nat) (mdl : RawModel), t ≠ st.loadToken →
      resumeModel st t mdl = { st with disposed := insert mdl.id st.disposed }) ∧
    σ.foldl (fun st f => f st) (switchScenarioStart st0) =
      { resumeModel (resumeGroups (switchScenarioStart st0)
            (switchScenarioStart st0).loadToken mMeta)
          (switchScenarioStart st0).loadToken mModel
        with disposed := insert bModel.id (resumeModel (resumeGroups (switchScenarioStart st0) (switchScenarioStart st0).loadToken mMeta) (switchScenarioStart st0).loadToken mModel).disposed } := by
  refine ⟨fun st t j h => resumeGroups_stale st t j h,
    fun st t mdl h => resumeModel_stale st t mdl h, ?_⟩
  have hb1 : loadSystemStart st0 "bones" =
      ({ st0 with activeSystem := "bones", selectedGroupKeys := ∅, loadToken := st0.loadToken + 1 }, Except.ok (st0.loadToken + 1)) := by
    unfold loadSystemStart
    rw [if_neg (by decide)]
  have ht1 : bonesToken st0 = st0.loadToken + 1 := by
    unfold bonesToken
    rw [hb1]
  have ht2 : (switchScenarioStart st0).loadToken = st0.loadToken + 2 := by
    unfold switchScenarioStart
    rw [hb1]
    unfold loadSystemStart
    rw [if_neg (by decide)]
  exact cancellation_core (switchScenarioStart st0) (bonesToken st0)
    (by rw [ht1, ht2]; omega) bMeta mMeta bModel mModel σ hσ

/-- Witness for C1 at the completion order groups₁, model₁, groups₂, model₂
from the fresh state `stEx`. -/
theorem switchSystem_cancellation_witness :
    ([fun st => resumeGroups st (bonesToken stEx) [],
      fun st => resumeModel st (bonesToken stEx) bModelEx,
      fun st => resumeGroups st (switchScenarioStart stEx).loadToken mdExpandEx,
      fun st => resumeModel st (switchScenarioStart stEx).loadToken mModelEx]
        : List (ViewerState → ViewerState)).foldl (fun st f => f st)
        (switchScenarioStart stEx) =
      { resumeModel (resumeGroups (switchScenarioStart stEx)
            (switchScenarioStart stEx).loadToken mdExpandEx)
          (switchScenarioStart stEx).loadToken mModelEx
        with disposed := insert bModelEx.id (resumeModel (resumeGroups (switchScenarioStart stEx) (switchScenarioStart stEx).loadToken mdExpandEx) (switchScenarioStart stEx).loadToken mModelEx).disposed } :=
  (switchSystem_cancellation stEx [] mdExpandEx bModelEx mModelEx _
    (Interleave.cons_left (Interleave.cons_left (Interleave.nil_left _)))).2.2

/-- Neither does the sibling implementation match the claim: it compares
lowercased raw strings, not normalized ones, so two spellings with equal
slugs need not match. -/
lemma renderChipsFromSearch_not_slug_matching :
    renderChipsFromSearch [⟨"bi-ceps", "Bi-Ceps"⟩] "bi ceps" = [] ∧
      strIncludes (slugify "Bi-Ceps") (slugify "bi ceps") = true := by decide

/-- C8 counterexample: the chips are not ordered by display-name length (the
name sequences of the implementation and of the claimed behaviour differ). -/
theorem filterGroups_not_length_ordered :
    (filterGroups idxC8 "").map Group.name ≠
      (filterGroupsSpec idxC8 "").map Group.name := by decide

lemma startsWithList_iff : ∀ (p l : List Char),
    startsWithList p l = true ↔ p <+: l := by
  intro p
  induction p with
  | nil => intro l; simp [startsWithList]
  | cons a as ih =>
    intro l
    cases l with
    | nil =>
      simp [startsWithList]
    | cons c cs =>
      rw [List.prefix_cons_iff]
      simp only [startsWithList, Bool.and_eq_true, decide_eq_true_eq, ih cs]
      constructor
      · rintro ⟨rfl, hp⟩
        exact Or.inr ⟨as, rfl, hp⟩
      · rintro (h | ⟨t, ht, hp⟩)
        · cases h
        · obtain ⟨rfl, rfl⟩ : a = c ∧ as = t := by
            injection ht with h1 h2
            exact ⟨h1, h2⟩
          exact ⟨rfl, hp⟩

lemma includesList_iff : ∀ (l p : List Char),
    includesList p l = true ↔ p <:+: l := by
  intro l
  induction l with
  | nil =>
    intro p
    rw [List.infix_nil]
    cases p <;> simp [includesList]
  | cons c cs ih =>
    intro p
    rw [List.infix_cons_iff]
    simp [includesList, startsWithList_iff, ih]

/-- C8 (amended): `filterGroups` returns exactly the groups whose slugified
display name contains the slugified query as a substring (an empty query
matches everything), with no cap, ordered case-insensitively
lexicographically by display name (not by length). -/
theorem filterGroups_correct (idx : List Group) (text : String) :
    (∀ g, g ∈ filterGroups idx text ↔
      g ∈ idx ∧ (slugify text = "" ∨
        (slugify text).toList <:+: (slugify g.name).toList)) ∧
    List.Sorted chipLE (filterGroups idx text) := by
  constructor
  · intro g
    unfold filterGroups renderChipsOrder
    rw [List.mem_filter, (List.perm_insertionSort chipLE idx).mem_iff]
    apply and_congr_right
    intro _
    by_cases hq : slugify text = ""
    · simp [hq]
    · simp only [hq, if_false]
      rw [show strIncludes (slugify g.name) (slugify text) =
        includesList (slugify text).toList (slugify g.name).toList from rfl]
      simp [includesList_iff, hq]
  · unfold filterGroups renderChipsOrder
    exact List.Pairwise.sublist (List.filter_sublist _)
      (List.sorted_insertionSort chipLE idx)

/-- Witness for the amended C8 on a concrete index and query. -/
theorem filterGroups_correct_witness :
    (⟨"bb", "bb", {"bb"}⟩ : Group) ∈ filterGroups idxC8 "b" ∧
      List.Sorted chipLE (filterGroups idxC8 "b") :=
  ⟨((filterGroups_correct idxC8 "b").1 ⟨"bb", "bb", {"bb"}⟩).mpr
      ⟨List.Mem.tail _ (List.Mem.head _), Or.inr (by decide)⟩,
   (filterGroups_correct idxC8 "b").2⟩

end Viewer
